import Mathlib

/-!
Verification development for the TrueNorth core simulator
(`core_simulator.py`).  The mutable Python object graph is embedded
shallowly: packets, cores and wires ("lines") live in indexed tables inside
a single simulation state, and every Python method becomes a state-passing
function.  Machine integers are `Int`/`Nat` (Python integers are unbounded,
so no wrap-around modelling is needed).
-/

namespace TrueSim

/-- `N_CHANNELS = 1` (module-level constant in the source). -/
def N_CHANNELS : Nat := 1

abbrev PacketId := Nat
abbrev CoreId := Nat
abbrev LineId := Nat

/-- A packet's `parent` field: a `Core`, a `Line`, or Python `None`
(destroyed). -/
inductive Parent where
  | core (c : CoreId)
  | line (l : LineId)
  | none
  deriving DecidableEq, Repr

/-- `Packet.__init__`: displacement `(dx, dy, dz)`, `routing_delay`, `name`,
`parent`, `directionality`.  The `ready_to_send` flag is set to `False` in
the constructor and never read anywhere in the current revision, so it is
omitted. -/
structure Packet where
  dx : Int
  dy : Int
  dz : Int
  routing_delay : Nat
  name : Nat
  parent : Parent
  directionality : String
  deriving DecidableEq, Repr

/-- The six-way cascade of conditional expressions in
`Packet.determine_directionality`, written in source order (the later
assignments override the earlier ones, so the *last* applicable condition
wins; priority is therefore x, then y, then z, with `"downbound"` as the
fall-through when nothing applies). -/
def determine_directionality (dx dy dz : Int) : String :=
  let d := if dz > 0 then "upbound" else "downbound"
  let d := if dy < 0 then "southbound" else d
  let d := if dy > 0 then "northbound" else d
  let d := if dx > 0 then "eastbound" else d
  if dx < 0 then "westbound" else d

/-- `Buffer`: the fixed array `out` of `N_CHANNELS` slots
(`[None for x in range(0, N_CHANNELS)]`). -/
structure Buffer where
  out : List (Option PacketId)
  deriving DecidableEq, Repr

/-- A `Buffer` as freshly constructed by `Buffer.__init__`. -/
def emptyBuffer : Buffer := ⟨List.replicate N_CHANNELS none⟩

/-- `Buffer.is_clear`: true iff some slot is `None`. -/
def Buffer.is_clear (b : Buffer) : Bool :=
  b.out.any fun s => s == none

/-- The loop of `Buffer.add`: place the packet in the first `None` slot
(`self.out[x] = packet` is a real indexed store); do nothing when every
slot is occupied. -/
def addToSlots (slots : List (Option PacketId)) (i : PacketId) :
    List (Option PacketId) :=
  match slots with
  | [] => []
  | Option.none :: rest => some i :: rest
  | some j :: rest => some j :: addToSlots rest i

/-- `Buffer.add`. -/
def Buffer.add (b : Buffer) (i : PacketId) : Buffer :=
  ⟨addToSlots b.out i⟩

/-- `Buffer.clear`: overwrite every slot with `None`. -/
def Buffer.clear (b : Buffer) : Buffer :=
  ⟨b.out.map fun _ => none⟩

/-- `Buffer.flush`: return the packets held in the slots, in slot order,
and clear the buffer. -/
def Buffer.flush (b : Buffer) : List PacketId × Buffer :=
  (b.out.filterMap id, b.clear)

/-- `Line`: `component_in`/`component_out` termini and the `channels`
array.  `default_routing_delay` is always `1` for a line (set in
`Line.__init__`), so it is used as the literal `1` where the source reads
the field. -/
structure Line where
  component_in : Option CoreId
  component_out : Option CoreId
  channels : List (Option PacketId)
  name : Nat
  deriving DecidableEq, Repr

/-- A `Line` as freshly constructed by `Line.__init__` (termini unset,
all channels empty). -/
def freshLine (name : Nat) : Line :=
  { component_in := none, component_out := none,
    channels := List.replicate N_CHANNELS none, name := name }

instance : Inhabited Line := ⟨freshLine 0⟩

/-- `Line.is_clear`: true iff some channel is `None`. -/
def Line.is_clear (l : Line) : Bool :=
  l.channels.any fun ch => ch == none

/-- `Core`: wire tables, buffers, the six staging buffers
(`packet_out_buffer`) and the six merge registers.
`default_routing_delay` is always `2` for a core (set in
`Core.__init__`), so it is used as the literal `2` where the source reads
the field. -/
structure Core where
  lines_in : List (Option LineId)
  lines_out : List (Option LineId)
  send_buffer : List PacketId
  wait_buffer : List PacketId
  name : Nat
  packet_out_buffer : List Buffer
  forward_north_merge : Option PacketId
  forward_east_merge : Option PacketId
  forward_south_merge : Option PacketId
  forward_west_merge : Option PacketId
  forward_up_merge : Option PacketId
  forward_down_merge : Option PacketId
  deriving DecidableEq, Repr

/-- A `Core` as freshly constructed by `Core.__init__` from the given wire
tables. -/
def freshCore (lin lout : List (Option LineId)) (name : Nat) : Core :=
  { lines_in := lin, lines_out := lout,
    send_buffer := [], wait_buffer := [], name := name,
    packet_out_buffer := List.replicate 6 emptyBuffer,
    forward_north_merge := none, forward_east_merge := none,
    forward_south_merge := none, forward_west_merge := none,
    forward_up_merge := none, forward_down_merge := none }

instance : Inhabited Core := ⟨freshCore (List.replicate 6 none) (List.replicate 6 none) 0⟩

/-- The whole mutable world of the simulator: the global packet list of
`simulate` (a list of packet ids), the backing tables for packets, cores
and lines, the global counter `Packet.delays`, everything printed so far,
and the loop counter `t` of `simulate`. -/
structure SimState where
  packets : List PacketId
  packetData : List Packet
  cores : List Core
  lines : List Line
  delays : Nat
  output : List String
  t : Nat
  deriving DecidableEq, Repr

def defaultPacket : Packet :=
  { dx := 0, dy := 0, dz := 0, routing_delay := 0, name := 0,
    parent := Parent.none, directionality := "" }

def SimState.packet (σ : SimState) (i : PacketId) : Packet :=
  σ.packetData.getD i defaultPacket

def SimState.core (σ : SimState) (c : CoreId) : Core :=
  σ.cores.getD c default

def SimState.line (σ : SimState) (l : LineId) : Line :=
  σ.lines.getD l default

def SimState.setPacket (σ : SimState) (i : PacketId) (p : Packet) : SimState :=
  { σ with packetData := σ.packetData.set i p }

def SimState.modifyPacket (σ : SimState) (i : PacketId) (f : Packet → Packet) :
    SimState :=
  σ.setPacket i (f (σ.packet i))

def SimState.setCore (σ : SimState) (c : CoreId) (co : Core) : SimState :=
  { σ with cores := σ.cores.set c co }

def SimState.modifyCore (σ : SimState) (c : CoreId) (f : Core → Core) : SimState :=
  σ.setCore c (f (σ.core c))

def SimState.setLine (σ : SimState) (l : LineId) (li : Line) : SimState :=
  { σ with lines := σ.lines.set l li }

/-- `Packet.delays += 1`. -/
def SimState.addDelay (σ : SimState) : SimState :=
  { σ with delays := σ.delays + 1 }

/-- A `print(...)` call appends one line to the console transcript. -/
def SimState.pushOutput (σ : SimState) (s : String) : SimState :=
  { σ with output := σ.output ++ [s] }

/-- Does `pat` occur at the head of `s`? (helper for Python's substring
test `pat in s`). -/
def charsHeadMatch : List Char → List Char → Bool
  | [], _ => true
  | _ :: _, [] => false
  | a :: as, b :: bs => a == b && charsHeadMatch as bs

/-- Does `pat` occur anywhere inside `s`? -/
def charsOccur (pat : List Char) : List Char → Bool
  | [] => pat.isEmpty
  | c :: rest => charsHeadMatch pat (c :: rest) || charsOccur pat rest

/-- Python's substring test `pat in s` on strings. -/
def strContains (s pat : String) : Bool :=
  charsOccur pat.data s.data

/-- `Line.is_clear` lifted to the state. -/
def lineIsClear (σ : SimState) (l : LineId) : Bool :=
  (σ.line l).is_clear

/-- `Line.inject`.  The Python body is

```
for channel in self.channels:
    if channel == None:
        channel = packet
        packet.parent = self
        packet.routing_delay = self.default_routing_delay
        return None
return packet
```

The assignment `channel = packet` rebinds the *loop variable*; it never
writes into `self.channels`, so the channel list is left unchanged in every
case.  The loop therefore acts once iff some channel is `None`: it sets the
packet's `parent` and `routing_delay` (to the line's transit latency `1`)
and returns `None`; otherwise the packet is returned. -/
def lineInject (σ : SimState) (l : LineId) (i : PacketId) :
    SimState × Option PacketId :=
  if (σ.line l).channels.any (fun ch => ch == none) then
    (σ.modifyPacket i fun p =>
      { p with parent := Parent.line l, routing_delay := 1 }, none)
  else
    (σ, some i)

/-- `Line.dissassociate`.  The Python body is

```
for channel in self.channels:
    if channel == packet:
        channel = None
```

Again `channel = None` rebinds the loop variable, so the call has no
effect on the state whatsoever. -/
def lineDissassociate (σ : SimState) (_l : LineId) (_i : PacketId) : SimState :=
  σ

/-- `Line.connect`. -/
def lineConnect (σ : SimState) (l : LineId) (t1 t2 : CoreId) : SimState :=
  σ.setLine l { σ.line l with component_in := some t1, component_out := some t2 }

/-- `Core.inject`: set the packet's `routing_delay` to the core's
`default_routing_delay` (always `2`), reparent it to this core, and append
it to the wait buffer. -/
def coreInject (σ : SimState) (c : CoreId) (i : PacketId) : SimState :=
  let σ1 := σ.modifyPacket i fun p =>
    { p with routing_delay := 2, parent := Parent.core c }
  σ1.modifyCore c fun co => { co with wait_buffer := co.wait_buffer ++ [i] }

/-- `Core.clear_merges`. -/
def clearMerges (σ : SimState) (c : CoreId) : SimState :=
  σ.modifyCore c fun co =>
    { co with
      forward_north_merge := none, forward_east_merge := none,
      forward_south_merge := none, forward_west_merge := none,
      forward_up_merge := none, forward_down_merge := none }

/-- `Core.advance`, translated branch for branch.  Python mutates
`packet.routing_delay = 6` before the tag dispatch, so a packet that loses
its arbiter ends with delay `0` (overwritten in the `else`), a winner keeps
delay `6`, and a packet whose tag matches no branch keeps delay `6` too.
Returns the updated state and `is_outbound` (true only for the early
return on an `exit` tag). -/
def coreAdvance (σ : SimState) (c : CoreId) (i : PacketId) : SimState × Bool :=
  let p := σ.packet i
  if strContains p.directionality "exit" then
    (σ, true)
  else
    let p := { p with routing_delay := 6 }
    if p.directionality == "eastbound" then
      if (σ.core c).forward_east_merge == none then
        let p := { p with directionality :=
          if p.dx ≠ 0 then "east-exit"
          else if p.dy > 0 then "north" else "south" }
        ((σ.setPacket i p).modifyCore c
          fun co => { co with forward_east_merge := some i }, false)
      else
        ((σ.setPacket i { p with routing_delay := 0 }).addDelay, false)
    else if p.directionality == "westbound" then
      if (σ.core c).forward_west_merge == none then
        let p := { p with directionality :=
          if p.dx ≠ 0 then "west-exit"
          else if p.dy > 0 then "north" else "south" }
        ((σ.setPacket i p).modifyCore c
          fun co => { co with forward_west_merge := some i }, false)
      else
        ((σ.setPacket i { p with routing_delay := 0 }).addDelay, false)
    else if strContains p.directionality "south" then
      if (σ.core c).forward_south_merge == none then
        let p := { p with directionality :=
          if p.dy ≠ 0 then "south-exit"
          else if p.dz > 0 then "up"
          else if p.dz < 0 then "down" else "self-exit" }
        ((σ.setPacket i p).modifyCore c
          fun co => { co with forward_south_merge := some i }, false)
      else
        ((σ.setPacket i { p with routing_delay := 0 }).addDelay, false)
    else if strContains p.directionality "north" then
      if (σ.core c).forward_north_merge == none then
        let p := { p with directionality :=
          if p.dy ≠ 0 then "north-exit"
          else if p.dz > 0 then "up"
          else if p.dz < 0 then "down" else "self-exit" }
        ((σ.setPacket i p).modifyCore c
          fun co => { co with forward_north_merge := some i }, false)
      else
        ((σ.setPacket i { p with routing_delay := 0 }).addDelay, false)
    else if strContains p.directionality "up" then
      if (σ.core c).forward_up_merge == none then
        let p := { p with directionality := "up-exit" }
        ((σ.setPacket i p).modifyCore c
          fun co => { co with forward_up_merge := some i }, false)
      else
        ((σ.setPacket i { p with routing_delay := 0 }).addDelay, false)
    else if strContains p.directionality "down" then
      if (σ.core c).forward_down_merge == none then
        let p := { p with directionality := "down-exit" }
        ((σ.setPacket i p).modifyCore c
          fun co => { co with forward_down_merge := some i }, false)
      else
        ((σ.setPacket i { p with routing_delay := 0 }).addDelay, false)
    else
      (σ.setPacket i p, false)

/-- One directional arm of `Core.forward` (the Python body repeats this
code once per direction with the direction index `d` changed; the message,
destruction and staging logic are identical in all six arms). -/
def forwardDir (σ : SimState) (c : CoreId) (i : PacketId) (d : Nat) :
    SimState × Option PacketId :=
  match (σ.core c).lines_out.getD d none with
  | Option.none =>
      (((σ.pushOutput ("Packet " ++ toString (σ.packet i).name ++ " was lost")).modifyPacket
          i fun q => { q with parent := Parent.none }), none)
  | some l =>
      if (σ.line l).is_clear &&
          ((σ.core c).packet_out_buffer.getD d emptyBuffer).is_clear then
        (σ.modifyCore c fun co =>
          { co with packet_out_buffer :=
              (co.packet_out_buffer.set d
                ((co.packet_out_buffer.getD d emptyBuffer).add i)) }, none)
      else
        (σ, some i)

/-- `Core.forward`: direction by sign priority dx, then dy, then dz, with
direction indices east=1, west=2, north=0, south=3, up=4, down=5; the final
`else` (all three components zero) destroys the packet with no message. -/
def coreForward (σ : SimState) (c : CoreId) (i : PacketId) :
    SimState × Option PacketId :=
  let p := σ.packet i
  if p.dx > 0 then forwardDir σ c i 1
  else if p.dx < 0 then forwardDir σ c i 2
  else if p.dy > 0 then forwardDir σ c i 0
  else if p.dy < 0 then forwardDir σ c i 3
  else if p.dz > 0 then forwardDir σ c i 4
  else if p.dz < 0 then forwardDir σ c i 5
  else
    (σ.modifyPacket i fun q => { q with parent := Parent.none }, none)

/-- The `while len(self.send_buffer) > 0` loop of `Core.route`: feed every
queued packet to `forward`, collecting the blocked ones (in order) as the
new send buffer. -/
def routeSendLoop (σ : SimState) (c : CoreId) :
    List PacketId → List PacketId → SimState × List PacketId
  | [], acc => (σ, acc)
  | i :: rest, acc =>
      match coreForward σ c i with
      | (σ1, Option.none) => routeSendLoop σ1 c rest acc
      | (σ1, some j) => routeSendLoop σ1 c rest (acc ++ [j])

/-- The `for packet in self.wait_buffer` loop of `Core.route`: decrement
positive delays; otherwise `advance`, and for outbound packets `forward`,
appending blocked packets to the (already rebuilt) send buffer and counting
a delay. -/
def routeWaitLoop (σ : SimState) (c : CoreId) :
    List PacketId → List PacketId → SimState × List PacketId
  | [], newWait => (σ, newWait)
  | i :: rest, newWait =>
      if (σ.packet i).routing_delay > 0 then
        let σ1 := σ.modifyPacket i fun p =>
          { p with routing_delay := p.routing_delay - 1 }
        routeWaitLoop σ1 c rest (newWait ++ [i])
      else
        match coreAdvance σ c i with
        | (σ1, true) =>
            match coreForward σ1 c i with
            | (σ2, Option.none) => routeWaitLoop σ2 c rest newWait
            | (σ2, some j) =>
                let σ3 := (σ2.addDelay).modifyCore c fun co =>
                  { co with send_buffer := co.send_buffer ++ [j] }
                routeWaitLoop σ3 c rest newWait
        | (σ1, false) => routeWaitLoop σ1 c rest (newWait ++ [i])

/-- `Core.route`: drain the send buffer through `forward`, then scan the
wait buffer, then clear the merge registers. -/
def coreRoute (σ : SimState) (c : CoreId) : SimState :=
  let r1 := routeSendLoop σ c (σ.core c).send_buffer []
  let σ1 := r1.1.modifyCore c fun co => { co with send_buffer := r1.2 }
  let r2 := routeWaitLoop σ1 c (σ1.core c).wait_buffer []
  let σ2 := r2.1.modifyCore c fun co => { co with wait_buffer := r2.2 }
  clearMerges σ2 c

/-- The inner loop of `Core.send_out` for one direction: inject each
flushed packet into the wire; a blocked packet is re-added to the staging
buffer and counted as a delay. -/
def sendOutPackets (σ : SimState) (c : CoreId) (x : Nat) (l : LineId) :
    List PacketId → SimState
  | [] => σ
  | i :: rest =>
      match lineInject σ l i with
      | (σ1, Option.none) => sendOutPackets σ1 c x l rest
      | (σ1, some j) =>
          let σ2 := (σ1.addDelay).modifyCore c fun co =>
            { co with packet_out_buffer :=
                (co.packet_out_buffer.set x
                  ((co.packet_out_buffer.getD x emptyBuffer).add j)) }
          sendOutPackets σ2 c x l rest

/-- One direction of `Core.send_out`: skipped when there is no outbound
wire, otherwise flush the staging buffer and inject each packet. -/
def sendOutLine (σ : SimState) (c : CoreId) (x : Nat) : SimState :=
  match (σ.core c).lines_out.getD x none with
  | Option.none => σ
  | some l =>
      let fl := ((σ.core c).packet_out_buffer.getD x emptyBuffer).flush
      let σ1 := σ.modifyCore c fun co =>
        { co with packet_out_buffer := co.packet_out_buffer.set x fl.2 }
      sendOutPackets σ1 c x l fl.1

/-- `Core.send_out`: `for x in range(0, len(self.lines_out))` (six
directions). -/
def coreSendOut (σ : SimState) (c : CoreId) : SimState :=
  (List.range 6).foldl (fun σ x => sendOutLine σ c x) σ

/-- The first per-packet loop of a `simulate` tick: every packet whose
parent is a `Line` has its `routing_delay` decremented, floored at zero
(`max(0, packet.routing_delay - 1)`; truncated `Nat` subtraction). -/
def decrementLineDelays (σ : SimState) : SimState :=
  σ.packets.foldl
    (fun σ i =>
      match (σ.packet i).parent with
      | Parent.line _ =>
          σ.modifyPacket i fun p =>
            { p with routing_delay := p.routing_delay - 1 }
      | _ => σ)
    σ

/-- The wire-exit part of the second per-packet loop of a `simulate` tick,
for one packet: if its parent is a line and its delay is zero,
`dissassociate` it (a no-op, see `lineDissassociate`), decrement the
highest-priority nonzero displacement component and assign the matching
fresh `*bound` tag — each guard also requires `component_out` to be
non-null — and finally, when `component_out` is non-null, inject the packet
into the downstream core.  When `component_out` is null nothing at all
happens to the packet: it stays parented to the wire. -/
def lineExitStep (σ : SimState) (i : PacketId) : SimState :=
  match (σ.packet i).parent with
  | Parent.line l =>
      if (σ.packet i).routing_delay == 0 then
        let σ0 := lineDissassociate σ l i
        let co := (σ0.line l).component_out
        let p := σ0.packet i
        let σ1 :=
          if p.dx > 0 ∧ co ≠ none then
            σ0.setPacket i { p with dx := p.dx - 1, directionality := "eastbound" }
          else if p.dx < 0 ∧ co ≠ none then
            σ0.setPacket i { p with dx := p.dx + 1, directionality := "westbound" }
          else if p.dy > 0 ∧ co ≠ none then
            σ0.setPacket i { p with dy := p.dy - 1, directionality := "northbound" }
          else if p.dy < 0 ∧ co ≠ none then
            σ0.setPacket i { p with dy := p.dy + 1, directionality := "southbound" }
          else if p.dz > 0 ∧ co ≠ none then
            σ0.setPacket i { p with dz := p.dz - 1, directionality := "upbound" }
          else if p.dz < 0 ∧ co ≠ none then
            σ0.setPacket i { p with dz := p.dz + 1, directionality := "downbound" }
          else σ0
        match co with
        | some c => coreInject σ1 c i
        | Option.none => σ1
      else σ
  | _ => σ

/-- The second per-packet loop of a `simulate` tick: run `lineExitStep` on
each packet and then (re-reading the possibly just-updated parent, exactly
as the Python loop body does with its second `if`) collect the parent core
into the duplicate-free visit list. -/
def visitStep (σ : SimState) : SimState × List CoreId :=
  σ.packets.foldl
    (fun acc i =>
      let σ1 := lineExitStep acc.1 i
      let tv :=
        match (σ1.packet i).parent with
        | Parent.core c => if c ∈ acc.2 then acc.2 else acc.2 ++ [c]
        | _ => acc.2
      (σ1, tv))
    (σ, [])

/-- One iteration of the `for t in range(0, timesteps)` loop of
`simulate`, for the deterministic workloads (the `random` workload's
per-tick packet generation draws on `random.random` and is outside this
embedding; under the `toy` workloads no packets are created inside the
loop).  `sh` stands for `random.shuffle` on the visit list: the caller
supplies the permutation used this tick. -/
def tick (sh : List CoreId → List CoreId) (σ : SimState) : SimState :=
  let σ := if σ.t % 10 == 0 then σ.pushOutput (toString σ.t) else σ
  let σ := decrementLineDelays σ
  let sv := visitStep σ
  let σ := sv.1
  let to_visit := sv.2
  let σ := to_visit.foldl (fun σ c => coreRoute σ c) σ
  let σ := (sh to_visit).foldl (fun σ c => coreSendOut σ c) σ
  { σ with t := σ.t + 1 }

/-- `timesteps` iterations of the tick loop. -/
def tickN (sh : List CoreId → List CoreId) : Nat → SimState → SimState
  | 0, σ => σ
  | n + 1, σ => tickN sh n (tick sh σ)

/-- `simulate(workload, timesteps, ...)` for the deterministic workloads:
the initial packet population is already part of `σ` (as `toy_run` builds
it before the loop) and the loop body runs exactly `timesteps` times —
the Python `for` loop contains no `break` or early exit. -/
def simulate (sh : List CoreId → List CoreId) (timesteps : Nat)
    (σ : SimState) : SimState :=
  tickN sh timesteps σ

/-- Largest `k` bounded by the second argument with `k ^ 2 ≤ n` (helper
for the floor integer square root; structurally recursive so that concrete
instances evaluate inside the kernel). -/
def sqrtAux (n : Nat) : Nat → Nat
  | 0 => 0
  | k + 1 => if (k + 1) ^ 2 ≤ n then k + 1 else sqrtAux n k

/-- Floor integer square root. -/
def natSqrt (n : Nat) : Nat := sqrtAux n n

/-- Largest `k` bounded by the second argument with `k ^ 3 ≤ n` (helper
for the integer cube root). -/
def cbrtAux (n : Nat) : Nat → Nat
  | 0 => 0
  | k + 1 => if (k + 1) ^ 3 ≤ n then k + 1 else cbrtAux n k

/-- Floor integer cube root. -/
def natCbrt (n : Nat) : Nat := cbrtAux n n

/-- `width = round(n_cores ** (1 / 2))` in `construct_mesh`.  Python's
`round` maps the float square root to the *nearest* integer, i.e. the
floor root `s = isqrt(n)` is bumped to `s + 1` exactly when the fractional
part is at least one half: `(s + 1/2)^2 ≤ n`, integrally `(2s+1)^2 ≤ 4n`.
(The tie `4n = (2s+1)^2` is impossible — odd versus even — so banker's
rounding never fires, and for the magnitudes involved the double-precision
root rounds to the mathematically nearest integer.) -/
def mesh_width (n : Nat) : Nat :=
  if 4 * n < (2 * natSqrt n + 1) ^ 2 then natSqrt n else natSqrt n + 1

/-- `width = round(n_cores ** (1 / 3))` in `construct_3D_mesh`, embedded
the same way as `mesh_width` with the floor cube root. -/
def mesh3D_width (n : Nat) : Nat :=
  if 8 * n < (2 * natCbrt n + 1) ^ 3 then natCbrt n else natCbrt n + 1

/-- Intermediate state of `construct_mesh`: the allocated lines and the
cores built so far, in creation order (row-major, so the core at grid cell
`(x, y)` has id `x * width + y`; line ids are allocation order, mirroring
the Python class counters). -/
structure MeshBuild where
  lines : List Line
  cores : List Core
  deriving DecidableEq, Repr

/-- `Line()` — allocate a fresh line, returning its id. -/
def mkLine (b : MeshBuild) : MeshBuild × LineId :=
  ({ b with lines := b.lines ++ [freshLine (b.lines.length + 1)] },
   b.lines.length)

/-- `[Line(), Line()]` — allocate a wire pair (in, out). -/
def mkLinePair (b : MeshBuild) : MeshBuild × (Option LineId × Option LineId) :=
  let r1 := mkLine b
  let r2 := mkLine r1.1
  (r2.1, (some r1.2, some r2.2))

/-- The body of `construct_mesh`'s allocation loop for cell `(x, y)`:
allocate south and east wire pairs unless on the respective edge (south
first, then east, matching Python's evaluation order and hence the line
id sequence), reuse the north neighbour's south wires and the west
neighbour's east wires, then create the core `Core(n1, n2, e1, e2, w1, w2,
s1, s2)` (`lines_in = [n1, e1, w1, s1, None, None]`,
`lines_out = [n2, e2, w2, s2, None, None]`). -/
def meshCell (width x y : Nat) (b : MeshBuild) : MeshBuild :=
  let rs := if x == width - 1 then (b, (none, none)) else mkLinePair b
  let b := rs.1
  let south := rs.2
  let north : Option LineId × Option LineId :=
    if x == 0 then (none, none)
    else
      let above := b.cores.getD ((x - 1) * width + y) default
      (above.lines_out.getD 3 none, above.lines_in.getD 3 none)
  let re := if y < width - 1 then mkLinePair b else (b, (none, none))
  let b := re.1
  let east := re.2
  let west : Option LineId × Option LineId :=
    if y == 0 then (none, none)
    else
      let left := b.cores.getD (x * width + (y - 1)) default
      (left.lines_out.getD 1 none, left.lines_in.getD 1 none)
  { b with cores := b.cores ++
      [freshCore [north.1, east.1, west.1, south.1, none, none]
        [north.2, east.2, west.2, south.2, none, none]
        (b.cores.length + 1)] }

/-- The allocation double loop of `construct_mesh`. -/
def buildCells (width : Nat) : MeshBuild :=
  (List.range width).foldl
    (fun b x => (List.range width).foldl (fun b y => meshCell width x y b) b)
    { lines := [], cores := [] }

/-- `line.connect(t1, t2)` on an optional line id inside the builder. -/
def connectLine (ls : List Line) (l : Option LineId) (cin cout : CoreId) :
    List Line :=
  match l with
  | Option.none => ls
  | some l =>
      ls.set l
        { ls.getD l default with
          component_in := some cin, component_out := some cout }

/-- The connection double loop of `construct_mesh`: **only** cells with
`x < width - 1` and `y < width - 1` get their east and south wires
connected (the source loops over `range(0, width - 1)` twice), so wires
hanging off the last row and last column keep null termini. -/
def connectCells (width : Nat) (b : MeshBuild) : MeshBuild :=
  (List.range (width - 1)).foldl
    (fun b x =>
      (List.range (width - 1)).foldl
        (fun b y =>
          let cid := x * width + y
          let co := b.cores.getD cid default
          let ls := connectLine b.lines (co.lines_out.getD 1 none) cid
            (x * width + (y + 1))
          let ls := connectLine ls (co.lines_in.getD 1 none)
            (x * width + (y + 1)) cid
          let ls := connectLine ls (co.lines_out.getD 3 none) cid
            ((x + 1) * width + y)
          let ls := connectLine ls (co.lines_in.getD 3 none)
            ((x + 1) * width + y) cid
          { b with lines := ls })
        b)
    b

/-- `construct_mesh(n_cores)`. -/
def construct_mesh (n_cores : Nat) : MeshBuild :=
  let width := mesh_width n_cores
  connectCells width (buildCells width)

/-- `Packet(parent_core, dx, dy, dz)` as a record (the constructor also
assigns `directionality = determine_directionality(...)` and starts with
`routing_delay = 0`). -/
def mkPacket (c : CoreId) (dx dy dz : Int) (name : Nat) : Packet :=
  { dx := dx, dy := dy, dz := dz, routing_delay := 0, name := name,
    parent := Parent.core c,
    directionality := determine_directionality dx dy dz }

/-- Build the pre-loop simulation state of a toy workload: the packet
records (each already naming its source core) become the global list, and
each is injected into its parent core exactly as `toy_run`'s final loop
does (`packet.parent.inject(packet)`). -/
def toyState (b : MeshBuild) (ps : List Packet) : SimState :=
  let σ0 : SimState :=
    { packets := List.range ps.length, packetData := ps,
      cores := b.cores, lines := b.lines, delays := 0, output := [], t := 0 }
  (List.range ps.length).foldl
    (fun σ i =>
      match (σ.packet i).parent with
      | Parent.core c => coreInject σ c i
      | _ => σ)
    σ0

/-! ### State accessor lemmas -/

theorem packet_setPacket_self (σ : SimState) (i : PacketId) (p : Packet)
    (h : i < σ.packetData.length) : (σ.setPacket i p).packet i = p := by
  simp [SimState.setPacket, SimState.packet, List.getD_eq_getElem?_getD,
    List.getElem?_set_self', h]

theorem packet_setPacket_ne (σ : SimState) (i j : PacketId) (p : Packet)
    (h : i ≠ j) : (σ.setPacket i p).packet j = σ.packet j := by
  simp [SimState.setPacket, SimState.packet, List.getD_eq_getElem?_getD,
    List.getElem?_set_ne h]

theorem core_setPacket (σ : SimState) (i : PacketId) (p : Packet) (c : CoreId) :
    (σ.setPacket i p).core c = σ.core c := rfl

theorem line_setPacket (σ : SimState) (i : PacketId) (p : Packet) (l : LineId) :
    (σ.setPacket i p).line l = σ.line l := rfl

theorem packet_setCore (σ : SimState) (c : CoreId) (co : Core) (i : PacketId) :
    (σ.setCore c co).packet i = σ.packet i := rfl

theorem line_setCore (σ : SimState) (c : CoreId) (co : Core) (l : LineId) :
    (σ.setCore c co).line l = σ.line l := rfl

theorem core_setCore_self (σ : SimState) (c : CoreId) (co : Core)
    (h : c < σ.cores.length) : (σ.setCore c co).core c = co := by
  simp [SimState.setCore, SimState.core, List.getD_eq_getElem?_getD,
    List.getElem?_set_self', h]

theorem core_setCore_ne (σ : SimState) (c c' : CoreId) (co : Core)
    (h : c ≠ c') : (σ.setCore c co).core c' = σ.core c' := by
  simp [SimState.setCore, SimState.core, List.getD_eq_getElem?_getD,
    List.getElem?_set_ne h]

theorem packet_addDelay (σ : SimState) (i : PacketId) :
    σ.addDelay.packet i = σ.packet i := rfl

theorem core_addDelay (σ : SimState) (c : CoreId) :
    σ.addDelay.core c = σ.core c := rfl

theorem packet_pushOutput (σ : SimState) (s : String) (i : PacketId) :
    (σ.pushOutput s).packet i = σ.packet i := rfl

theorem core_pushOutput (σ : SimState) (s : String) (c : CoreId) :
    (σ.pushOutput s).core c = σ.core c := rfl

/-! ### C4 — initial directionality assignment -/

/-- The directionality assignment as the (amended) spec describes it:
dimension-order priority x, y, z, with `"downbound"` — not `"self-exit"` —
when the whole displacement is zero. -/
def directionality_amended (dx dy dz : Int) : String :=
  if dx > 0 then "eastbound"
  else if dx < 0 then "westbound"
  else if dy > 0 then "northbound"
  else if dy < 0 then "southbound"
  else if dz > 0 then "upbound"
  else "downbound"

/-- C4 counterexample: on the all-zero displacement
`determine_directionality` returns `"downbound"`, not `"self-exit"` as the
claim states (the `dz > 0` test fails and every later override is
inactive, so the `"downbound"` arm of the first conditional expression
survives). -/
theorem determine_directionality_zero_not_self_exit :
    determine_directionality 0 0 0 = "downbound" ∧
    determine_directionality 0 0 0 ≠ "self-exit" := by
  decide

/-- C4 (amended): `determine_directionality` assigns the tag by
dimension-order priority — dx first (east/west by sign), then dy
(north/south), then dz (up/down) — and returns `"downbound"` (not
`"self-exit"`) when dx = dy = dz = 0. -/
theorem determine_directionality_dimension_order (dx dy dz : Int) :
    determine_directionality dx dy dz = directionality_amended dx dy dz := by
  unfold determine_directionality directionality_amended
  split_ifs <;> first | rfl | omega

/-! ### C9 — `Buffer.add` on a full buffer -/

theorem addToSlots_full (i : PacketId) (slots : List (Option PacketId))
    (h : ∀ s ∈ slots, s ≠ none) : addToSlots slots i = slots := by
  induction slots with
  | nil => rfl
  | cons s rest ih =>
      match s with
      | Option.none => exact absurd rfl (h none (List.mem_cons_self _ _))
      | some j =>
          simp only [addToSlots]
          rw [ih fun x hx => h x (List.mem_cons_of_mem _ hx)]

/-- C9: calling `Buffer.add` when every slot is occupied is a silent
no-op — the loop finds no `None` slot, stores the packet nowhere, and the
function (which returns no status in the source) leaves the buffer
unchanged, so the packet vanishes from the routing pipeline. -/
theorem buffer_add_full_noop (b : Buffer) (i : PacketId)
    (h : ∀ s ∈ b.out, s ≠ none) : b.add i = b := by
  cases b with
  | mk out => simp only [Buffer.add]; rw [addToSlots_full i out h]

/-- Witness for `buffer_add_full_noop` at a concrete full buffer. -/
theorem buffer_add_full_noop_witness :
    (∀ s ∈ (Buffer.mk [some 7]).out, s ≠ none) ∧
      (Buffer.mk [some 7]).add 3 = Buffer.mk [some 7] :=
  ⟨by decide, buffer_add_full_noop (Buffer.mk [some 7]) 3 (by decide)⟩

/-! ### C2 — `Line.inject` never occupies a channel -/

/-- A one-line, one-packet state whose line is fresh (its single channel
empty). -/
def c2OpenState : SimState :=
  { packets := [0], packetData := [mkPacket 0 1 0 0 1], cores := [],
    lines := [freshLine 1], delays := 0, output := [], t := 0 }

/-- The same state with the line's channel occupied (by packet id 9). -/
def c2FullState : SimState :=
  { c2OpenState with lines := [{ freshLine 1 with channels := [some 9] }] }

/-- C2 (code bug): on a wire with an empty channel, `inject` does return
`None`, does set the packet's parent to the wire and its `routing_delay`
to the transit latency 1, and does fail (returning the packet, state
untouched) when every channel is occupied — but it never *places* the
packet in the empty channel: the loop assignment `channel = packet`
rebinds the loop variable, so the channel list is `[None]` before and
after a successful injection and the wire still reports `is_clear`. -/
theorem line_inject_never_occupies_channel :
    (lineInject c2OpenState 0 0).2 = none ∧
    ((lineInject c2OpenState 0 0).1.packet 0).parent = Parent.line 0 ∧
    ((lineInject c2OpenState 0 0).1.packet 0).routing_delay = 1 ∧
    ((lineInject c2OpenState 0 0).1.line 0).channels = [none] ∧
    ((lineInject c2OpenState 0 0).1.line 0).is_clear = true ∧
    (lineInject c2FullState 0 0).2 = some 0 ∧
    (lineInject c2FullState 0 0).1 = c2FullState := by
  decide

/-! ### C8 — mesh width is round, not floor -/

/-- C8 counterexample: the constructed widths at `n_cores = 3` (2D) and
`n_cores = 7` (3D) are `2`, which cannot be the floor of the respective
roots since `2 ^ 2 > 3` and `2 ^ 3 > 7` (a floor root `w` always satisfies
`w ^ dim ≤ n`). -/
theorem mesh_width_not_floor :
    mesh_width 3 = 2 ∧ ¬ (mesh_width 3) ^ 2 ≤ 3 ∧
    mesh3D_width 7 = 2 ∧ ¬ (mesh3D_width 7) ^ 3 ≤ 7 := by
  decide

theorem sqrtAux_sq_le (n : Nat) : ∀ k, sqrtAux n k ^ 2 ≤ n := by
  intro k
  induction k with
  | zero => simpa [sqrtAux] using Nat.zero_le n
  | succ k ih =>
      unfold sqrtAux
      split_ifs with h
      · exact h
      · exact ih

theorem le_sqrtAux (n : Nat) : ∀ k j, j ≤ k → j ^ 2 ≤ n → j ≤ sqrtAux n k := by
  intro k
  induction k with
  | zero => intro j hj _; simpa [sqrtAux] using hj
  | succ k ih =>
      intro j hj hsq
      unfold sqrtAux
      split_ifs with h
      · exact hj
      · rcases Nat.eq_or_lt_of_le hj with he | hl
        · exact absurd (he ▸ hsq) h
        · exact ih j (Nat.lt_succ_iff.mp hl) hsq

theorem natSqrt_sq_le (n : Nat) : natSqrt n ^ 2 ≤ n := sqrtAux_sq_le n n

theorem natSqrt_lt_succ (n : Nat) : n < (natSqrt n + 1) ^ 2 := by
  by_contra hle
  push_neg at hle
  have h1 : natSqrt n + 1 ≤ n :=
    le_trans (Nat.le_self_pow two_ne_zero _) hle
  have h2 := le_sqrtAux n n (natSqrt n + 1) h1 hle
  have h3 : sqrtAux n n = natSqrt n := rfl
  omega

theorem cbrtAux_cube_le (n : Nat) : ∀ k, cbrtAux n k ^ 3 ≤ n := by
  intro k
  induction k with
  | zero => simpa [cbrtAux] using Nat.zero_le n
  | succ k ih =>
      unfold cbrtAux
      split_ifs with h
      · exact h
      · exact ih

theorem le_cbrtAux (n : Nat) : ∀ k j, j ≤ k → j ^ 3 ≤ n → j ≤ cbrtAux n k := by
  intro k
  induction k with
  | zero => intro j hj _; simpa [cbrtAux] using hj
  | succ k ih =>
      intro j hj hcu
      unfold cbrtAux
      split_ifs with h
      · exact hj
      · rcases Nat.eq_or_lt_of_le hj with he | hl
        · exact absurd (he ▸ hcu) h
        · exact ih j (Nat.lt_succ_iff.mp hl) hcu

theorem natCbrt_cube_le (n : Nat) : natCbrt n ^ 3 ≤ n := cbrtAux_cube_le n n

theorem natCbrt_lt_succ (n : Nat) : n < (natCbrt n + 1) ^ 3 := by
  by_contra hle
  push_neg at hle
  have h1 : natCbrt n + 1 ≤ n :=
    le_trans (Nat.le_self_pow three_ne_zero _) hle
  have h2 := le_cbrtAux n n (natCbrt n + 1) h1 hle
  have h3 : cbrtAux n n = natCbrt n := rfl
  omega

theorem rpow_third_cube (a : ℝ) (ha : 0 ≤ a) :
    (a ^ (3 : ℕ) : ℝ) ^ ((3:ℝ)⁻¹) = a := by
  rw [← Real.rpow_natCast a 3, ← Real.rpow_mul ha]
  norm_num

theorem half_bounds_sqrt (n : Nat) :
    (mesh_width n : ℝ) - 1/2 ≤ Real.sqrt n ∧
      Real.sqrt n < (mesh_width n : ℝ) + 1/2 := by
  have hle : (natSqrt n : ℝ) ≤ Real.sqrt n := by
    refine Real.le_sqrt (by positivity) (by positivity) |>.mpr ?_
    exact_mod_cast natSqrt_sq_le n
  have hlt : Real.sqrt n < (natSqrt n : ℝ) + 1 := by
    refine (Real.sqrt_lt' (by positivity)).mpr ?_
    exact_mod_cast natSqrt_lt_succ n
  unfold mesh_width
  split_ifs with hc
  · constructor
    · push_cast
      linarith
    · push_cast
      refine (Real.sqrt_lt' (by positivity)).mpr ?_
      have hc' : (4 * n : ℝ) < ((2 * natSqrt n + 1 : ℕ) : ℝ) ^ 2 := by
        exact_mod_cast hc
      push_cast at hc'
      nlinarith
  · push_neg at hc
    constructor
    · push_cast
      have hc' : (((2 * natSqrt n + 1 : ℕ) : ℝ)) ^ 2 ≤ 4 * n := by
        exact_mod_cast hc
      push_cast at hc'
      have : ((natSqrt n : ℝ) + 1/2) ≤ Real.sqrt n := by
        refine Real.le_sqrt (by positivity) (by positivity) |>.mpr ?_
        nlinarith
      linarith
    · push_cast
      linarith

theorem half_bounds_cbrt (n : Nat) :
    (mesh3D_width n : ℝ) - 1/2 ≤ (n:ℝ) ^ ((3:ℝ)⁻¹) ∧
      (n:ℝ) ^ ((3:ℝ)⁻¹) < (mesh3D_width n : ℝ) + 1/2 := by
  have hle : (natCbrt n : ℝ) ≤ (n:ℝ) ^ ((3:ℝ)⁻¹) := by
    have h1 : ((natCbrt n : ℝ) ^ (3:ℕ)) ^ ((3:ℝ)⁻¹) ≤ (n:ℝ) ^ ((3:ℝ)⁻¹) := by
      refine Real.rpow_le_rpow (by positivity) ?_ (by norm_num)
      exact_mod_cast natCbrt_cube_le n
    rwa [rpow_third_cube _ (by positivity)] at h1
  have hlt : (n:ℝ) ^ ((3:ℝ)⁻¹) < (natCbrt n : ℝ) + 1 := by
    have h1 : (n:ℝ) ^ ((3:ℝ)⁻¹) <
        (((natCbrt n : ℝ) + 1) ^ (3:ℕ)) ^ ((3:ℝ)⁻¹) := by
      refine Real.rpow_lt_rpow (by positivity) ?_ (by norm_num)
      exact_mod_cast natCbrt_lt_succ n
    rwa [rpow_third_cube _ (by positivity)] at h1
  unfold mesh3D_width
  split_ifs with hc
  · constructor
    · push_cast
      linarith
    · push_cast
      have hc' : (8 * n : ℝ) < ((2 * natCbrt n + 1 : ℕ) : ℝ) ^ 3 := by
        exact_mod_cast hc
      push_cast at hc'
      have h1 : (n:ℝ) ^ ((3:ℝ)⁻¹) <
          (((natCbrt n : ℝ) + 1/2) ^ (3:ℕ)) ^ ((3:ℝ)⁻¹) := by
        refine Real.rpow_lt_rpow (by positivity) ?_ (by norm_num)
        push_cast
        nlinarith
      rw [rpow_third_cube _ (by positivity)] at h1
      linarith
  · push_neg at hc
    constructor
    · push_cast
      have hc' : ((2 * natCbrt n + 1 : ℕ) : ℝ) ^ 3 ≤ 8 * n := by
        exact_mod_cast hc
      push_cast at hc'
      have h1 : (((natCbrt n : ℝ) + 1/2) ^ (3:ℕ)) ^ ((3:ℝ)⁻¹) ≤
          (n:ℝ) ^ ((3:ℝ)⁻¹) := by
        refine Real.rpow_le_rpow (by positivity) ?_ (by norm_num)
        push_cast
        nlinarith
      rw [rpow_third_cube _ (by positivity)] at h1
      linarith
    · push_cast
      linarith

theorem nat_nearest_of_bounds (W w : Nat) (r : ℝ)
    (hL : (W:ℝ) - 1/2 ≤ r) (hU : r < (W:ℝ) + 1/2) :
    |(W:ℝ) - r| ≤ |(w:ℝ) - r| := by
  have h1 : |(W:ℝ) - r| ≤ 1/2 := abs_le.mpr ⟨by linarith, by linarith⟩
  rcases lt_trichotomy w W with h | h | h
  · have hw : (w:ℝ) + 1 ≤ W := by exact_mod_cast Nat.succ_le_of_lt h
    calc |(W:ℝ) - r| ≤ 1/2 := h1
      _ ≤ r - w := by linarith
      _ ≤ |r - (w:ℝ)| := le_abs_self _
      _ = |(w:ℝ) - r| := abs_sub_comm _ _
  · subst h; exact le_refl _
  · have hw : (W:ℝ) + 1 ≤ w := by exact_mod_cast Nat.succ_le_of_lt h
    calc |(W:ℝ) - r| ≤ 1/2 := h1
      _ ≤ (w:ℝ) - r := by linarith
      _ ≤ |(w:ℝ) - r| := le_abs_self _

/-- C8 (amended): the constructed mesh width is the integer *nearest* to
`n_cores ^ (1/2)` (2D) resp. `n_cores ^ (1/3)` (3D) — Python's `round` of
the float root — not the floor: for every `n` and every natural `w`, the
width is at least as close to the real root as `w` is. -/
theorem mesh_width_nearest (n w : Nat) :
    |(mesh_width n : ℝ) - Real.sqrt n| ≤ |(w:ℝ) - Real.sqrt n| ∧
    |(mesh3D_width n : ℝ) - (n:ℝ) ^ ((3:ℝ)⁻¹)| ≤
      |(w:ℝ) - (n:ℝ) ^ ((3:ℝ)⁻¹)| :=
  ⟨nat_nearest_of_bounds _ w _ (half_bounds_sqrt n).1 (half_bounds_sqrt n).2,
   nat_nearest_of_bounds _ w _ (half_bounds_cbrt n).1 (half_bounds_cbrt n).2⟩


/-! ### C5 — `Core.forward` refines the spec's forwarding rules -/

/-- The outbound direction index "implied by p's residual displacement
(sign priority dx > dy > dz)" in the spec's words, with the spec's index
convention north=0, east=1, west=2, south=3, up=4, down=5; `none` when
dx = dy = dz = 0 (destination reached). -/
def spec_direction (p : Packet) : Option Nat :=
  if p.dx > 0 then some 1
  else if p.dx < 0 then some 2
  else if p.dy > 0 then some 0
  else if p.dy < 0 then some 3
  else if p.dz > 0 then some 4
  else if p.dz < 0 then some 5
  else none

/-- `forward` as the spec states it: when the displacement is zero,
destroy (parent ← null), no message; when `out_wires[d]` is null, print
`Packet <id> was lost` and destroy; when both the wire and `out_slots[d]`
are clear, add the packet to `out_slots[d]` and return `None`; otherwise
return the packet unchanged. -/
def forward_spec (σ : SimState) (c : CoreId) (i : PacketId) :
    SimState × Option PacketId :=
  match spec_direction (σ.packet i) with
  | Option.none =>
      (σ.modifyPacket i fun q => { q with parent := Parent.none }, none)
  | some d =>
      match (σ.core c).lines_out.getD d none with
      | Option.none =>
          (((σ.pushOutput ("Packet " ++ toString (σ.packet i).name ++ " was lost")).modifyPacket
              i fun q => { q with parent := Parent.none }), none)
      | some l =>
          if (σ.line l).is_clear &&
              ((σ.core c).packet_out_buffer.getD d emptyBuffer).is_clear then
            (σ.modifyCore c fun co =>
              { co with packet_out_buffer :=
                  (co.packet_out_buffer.set d
                    ((co.packet_out_buffer.getD d emptyBuffer).add i)) }, none)
          else
            (σ, some i)

/-- C5: `Core.forward` behaves exactly as specified — direction by sign
priority dx over dy over dz; destruction with a `Packet <id> was lost`
line when the outbound wire is null; staging into `out_slots[d]` when both
wire and slot are clear; returning the packet unchanged otherwise; and
silent destruction (destination reached) when dx = dy = dz = 0. -/
theorem forward_matches_spec (σ : SimState) (c : CoreId) (i : PacketId) :
    coreForward σ c i = forward_spec σ c i := by
  simp only [coreForward, forward_spec, spec_direction, forwardDir]
  split_ifs <;> rfl

/-! ### C6 — merge-arbiter contention -/

inductive MergeDir where
  | north
  | east
  | south
  | west
  | up
  | down
  deriving DecidableEq, Repr

/-- The merge register of a core for a given axis. -/
def mergeSlot (co : Core) : MergeDir → Option PacketId
  | MergeDir.north => co.forward_north_merge
  | MergeDir.east => co.forward_east_merge
  | MergeDir.south => co.forward_south_merge
  | MergeDir.west => co.forward_west_merge
  | MergeDir.up => co.forward_up_merge
  | MergeDir.down => co.forward_down_merge

/-- Which merge register a directionality tag contends for, following the
branch discrimination of `Core.advance` (`none` for tags containing
`exit`, which bypass arbitration, and for tags matching no branch). -/
def mergeTarget (tag : String) : Option MergeDir :=
  if strContains tag "exit" then none
  else if tag == "eastbound" then some MergeDir.east
  else if tag == "westbound" then some MergeDir.west
  else if strContains tag "south" then some MergeDir.south
  else if strContains tag "north" then some MergeDir.north
  else if strContains tag "up" then some MergeDir.up
  else if strContains tag "down" then some MergeDir.down
  else none

theorem mergeTarget_cases (tag : String) (M : MergeDir)
    (h : mergeTarget tag = some M) :
    strContains tag "exit" = false ∧
    ((M = MergeDir.east ∧ (tag == "eastbound") = true) ∨
     (M = MergeDir.west ∧ (tag == "eastbound") = false ∧
       (tag == "westbound") = true) ∨
     (M = MergeDir.south ∧ (tag == "eastbound") = false ∧
       (tag == "westbound") = false ∧ strContains tag "south" = true) ∨
     (M = MergeDir.north ∧ (tag == "eastbound") = false ∧
       (tag == "westbound") = false ∧ strContains tag "south" = false ∧
       strContains tag "north" = true) ∨
     (M = MergeDir.up ∧ (tag == "eastbound") = false ∧
       (tag == "westbound") = false ∧ strContains tag "south" = false ∧
       strContains tag "north" = false ∧ strContains tag "up" = true) ∨
     (M = MergeDir.down ∧ (tag == "eastbound") = false ∧
       (tag == "westbound") = false ∧ strContains tag "south" = false ∧
       strContains tag "north" = false ∧ strContains tag "up" = false ∧
       strContains tag "down" = true)) := by
  simp only [mergeTarget] at h
  split_ifs at h with h1 h2 h3 h4 h5 h6 h7 <;> simp_all

theorem packetData_length_setPacket (σ : SimState) (i : PacketId) (p : Packet) :
    (σ.setPacket i p).packetData.length = σ.packetData.length := by
  simp [SimState.setPacket]

theorem delays_setPacket (σ : SimState) (i : PacketId) (p : Packet) :
    (σ.setPacket i p).delays = σ.delays := rfl

theorem delays_setCore (σ : SimState) (c : CoreId) (co : Core) :
    (σ.setCore c co).delays = σ.delays := rfl

theorem packet_setPacket_ne' (σ : SimState) (i k : PacketId) (p : Packet)
    (h : ¬k = i) : (σ.setPacket i p).packet k = σ.packet k :=
  packet_setPacket_ne σ i k p fun he => h he.symm

theorem cores_length_setPacket (σ : SimState) (i : PacketId) (p : Packet) :
    (σ.setPacket i p).cores.length = σ.cores.length := rfl

theorem packetData_length_setCore (σ : SimState) (c : CoreId) (co : Core) :
    (σ.setCore c co).packetData.length = σ.packetData.length := rfl

theorem cores_length_setCore (σ : SimState) (c : CoreId) (co : Core) :
    (σ.setCore c co).cores.length = σ.cores.length := by
  simp [SimState.setCore]

/-- `advance` on a packet whose target merge register is already occupied:
the packet's `routing_delay` is zeroed (it was briefly set to 6, then
overwritten), nothing else about the packet — in particular its
directionality tag — changes, the global delay counter is incremented,
the core is untouched, and the packet is not outbound. -/
theorem advance_occupied (σ : SimState) (c : CoreId) (j : PacketId)
    (M : MergeDir)
    (ht : mergeTarget (σ.packet j).directionality = some M)
    (hm : mergeSlot (σ.core c) M ≠ none) :
    coreAdvance σ c j =
      ((σ.setPacket j { σ.packet j with routing_delay := 0 }).addDelay,
        false) := by
  obtain ⟨hexit, hcase⟩ := mergeTarget_cases _ _ ht
  rcases hcase with ⟨hM, h1⟩ | ⟨hM, h1, h2⟩ | ⟨hM, h1, h2, h3⟩ |
    ⟨hM, h1, h2, h3, h4⟩ | ⟨hM, h1, h2, h3, h4, h5⟩ |
    ⟨hM, h1, h2, h3, h4, h5, h6⟩ <;> subst hM <;>
    simp_all [coreAdvance, mergeSlot, beq_iff_eq]

/-- `advance` on a packet whose target merge register is free: the packet
takes the register, the delay counter does not move, and no other packet
record changes. -/
theorem advance_winner (σ : SimState) (c : CoreId) (i : PacketId)
    (M : MergeDir) (hc : c < σ.cores.length)
    (ht : mergeTarget (σ.packet i).directionality = some M)
    (hm : mergeSlot (σ.core c) M = none) :
    mergeSlot ((coreAdvance σ c i).1.core c) M = some i ∧
    (coreAdvance σ c i).1.delays = σ.delays ∧
    (coreAdvance σ c i).1.packetData.length = σ.packetData.length ∧
    (coreAdvance σ c i).1.cores.length = σ.cores.length ∧
    ∀ k, k ≠ i → (coreAdvance σ c i).1.packet k = σ.packet k := by
  obtain ⟨hexit, hcase⟩ := mergeTarget_cases _ _ ht
  rcases hcase with ⟨hM, h1⟩ | ⟨hM, h1, h2⟩ | ⟨hM, h1, h2, h3⟩ |
    ⟨hM, h1, h2, h3, h4⟩ | ⟨hM, h1, h2, h3, h4, h5⟩ |
    ⟨hM, h1, h2, h3, h4, h5, h6⟩ <;> subst hM <;>
    refine ⟨?_, ?_, ?_, ?_, fun k hk => ?_⟩ <;>
    simp_all [coreAdvance, mergeSlot, beq_iff_eq, SimState.modifyCore,
      core_setCore_self, core_setPacket, packetData_length_setPacket,
      packetData_length_setCore, cores_length_setPacket,
      cores_length_setCore, packet_setCore, packet_setPacket_ne',
      delays_setPacket, delays_setCore, SimState.addDelay]

/-- C6: when two packets contend for the same merge register of a core in
the same tick (registers clear at the start, as `clear_merges` leaves
them), the first-scanned packet takes the register; the loser is not
outbound, its routing_delay is set to 0 (so it retries next tick), its
directionality tag is left unchanged, and the global delay counter is
incremented by one for the lost contest. -/
theorem arbiter_contention_first_scanned_wins
    (σ : SimState) (c : CoreId) (i j : PacketId) (M : MergeDir)
    (hc : c < σ.cores.length) (hj : j < σ.packetData.length) (hij : j ≠ i)
    (hm : mergeSlot (σ.core c) M = none)
    (ht1 : mergeTarget (σ.packet i).directionality = some M)
    (ht2 : mergeTarget (σ.packet j).directionality = some M) :
    mergeSlot ((coreAdvance σ c i).1.core c) M = some i ∧
    (coreAdvance (coreAdvance σ c i).1 c j).2 = false ∧
    ((coreAdvance (coreAdvance σ c i).1 c j).1.packet j).routing_delay = 0 ∧
    ((coreAdvance (coreAdvance σ c i).1 c j).1.packet j).directionality =
      (σ.packet j).directionality ∧
    (coreAdvance (coreAdvance σ c i).1 c j).1.delays = σ.delays + 1 ∧
    mergeSlot ((coreAdvance (coreAdvance σ c i).1 c j).1.core c) M = some i := by
  obtain ⟨A1, A2, A3, A4, A5⟩ := advance_winner σ c i M hc ht1 hm
  have hpj : (coreAdvance σ c i).1.packet j = σ.packet j := A5 j hij
  have hlt : j < (coreAdvance σ c i).1.packetData.length := by
    rw [A3]; exact hj
  have ht2' :
      mergeTarget ((coreAdvance σ c i).1.packet j).directionality = some M := by
    rw [hpj]; exact ht2
  have hocc : mergeSlot ((coreAdvance σ c i).1.core c) M ≠ none := by
    rw [A1]; simp
  have hadv := advance_occupied (coreAdvance σ c i).1 c j M ht2' hocc
  rw [hadv]
  refine ⟨A1, rfl, ?_, ?_, ?_, ?_⟩
  · rw [packet_addDelay, packet_setPacket_self _ _ _ hlt]
  · rw [packet_addDelay, packet_setPacket_self _ _ _ hlt]
    show ((coreAdvance σ c i).1.packet j).directionality =
      (σ.packet j).directionality
    rw [hpj]
  · show (coreAdvance σ c i).1.delays + 1 = σ.delays + 1
    rw [A2]
  · show mergeSlot ((coreAdvance σ c i).1.core c) M = some i
    exact A1

/-- A two-packet, one-core state in which both packets target the south
merge register (one `southbound`, one corner-turn `south`). -/
def c6State : SimState :=
  { packets := [0, 1],
    packetData :=
      [{ dx := 0, dy := -1, dz := 0, routing_delay := 0, name := 1,
         parent := Parent.core 0, directionality := "southbound" },
       { dx := 0, dy := -2, dz := 0, routing_delay := 0, name := 2,
         parent := Parent.core 0, directionality := "south" }],
    cores := [freshCore (List.replicate 6 none) (List.replicate 6 none) 1],
    lines := [], delays := 0, output := [], t := 0 }

/-- Witness for `arbiter_contention_first_scanned_wins` at a concrete
two-packet contention for the south merge register. -/
theorem arbiter_contention_first_scanned_wins_witness :
    mergeSlot ((coreAdvance c6State 0 0).1.core 0) MergeDir.south = some 0 ∧
    (coreAdvance (coreAdvance c6State 0 0).1 0 1).2 = false ∧
    ((coreAdvance (coreAdvance c6State 0 0).1 0 1).1.packet 1).routing_delay = 0 ∧
    ((coreAdvance (coreAdvance c6State 0 0).1 0 1).1.packet 1).directionality =
      (c6State.packet 1).directionality ∧
    (coreAdvance (coreAdvance c6State 0 0).1 0 1).1.delays = c6State.delays + 1 ∧
    mergeSlot ((coreAdvance (coreAdvance c6State 0 0).1 0 1).1.core 0)
      MergeDir.south = some 0 :=
  arbiter_contention_first_scanned_wins c6State 0 0 1 MergeDir.south
    (by decide) (by decide) (by decide) (by decide) (by decide) (by decide)

/-! ### C1 / C3 — concrete run on the 2×2 mesh built by `construct_mesh 4` -/

/-- The pre-loop state of a toy workload on `construct_mesh(4)` (a 2×2
mesh): two packets with displacement `(0, -1, 0)` created at and injected
into the core at grid cell `(0, 1)` (core id 1).  That core's south
out-wire is line 5, which `construct_mesh`'s connection loop never
connects (`for x in range(0, width - 1)` skips the last column), so line
5 has `component_out = None`. -/
def c1Init : SimState :=
  toyState (construct_mesh 4) [mkPacket 1 0 (-1) 0 1, mkPacket 1 0 (-1) 0 2]

/-- The state after 11 ticks of the simulation loop (the visit list never
holds more than the single core 1, so the shuffle is immaterial and is
instantiated with the identity). -/
def c1Run : SimState := tickN (fun l => l) 11 c1Init

/-- One tick further. -/
def c3Run : SimState := tickN (fun l => l) 12 c1Init

set_option maxRecDepth 8000 in
/-- C1 (code bug): after 11 ticks *both* live packets have parent =
line 5 even though `N_CHANNELS = 1`.  The first packet reached the
unconnected wire at tick 10 and is stuck there with delay 0; because
`Line.inject` never writes a channel (`channel = packet` rebinds the loop
variable) the wire still reports a free channel, so the trailing packet is
injected into the same wire at tick 11. -/
theorem wire_capacity_exceeded :
    (c1Run.packet 0).parent = Parent.line 5 ∧
    (c1Run.packet 1).parent = Parent.line 5 ∧
    (c1Run.line 5).channels = [none] ∧
    N_CHANNELS = 1 := by
  decide

set_option maxRecDepth 8000 in
/-- C3 counterexample: at the end of tick 11 packet 0 sits on wire 5 with
routing_delay 0 and the wire's downstream terminus is null — by the claim
the packet should be dropped (destroyed) during tick 12.  Instead, after
tick 12 it is still parented to wire 5, alive, and its displacement is
untouched. -/
theorem edge_packet_not_dropped :
    (c1Run.packet 0).parent = Parent.line 5 ∧
    (c1Run.packet 0).routing_delay = 0 ∧
    (c1Run.line 5).component_out = none ∧
    (c3Run.packet 0).parent = Parent.line 5 ∧
    (c3Run.packet 0).parent ≠ Parent.none ∧
    (c3Run.packet 0).dy = -1 := by
  decide

theorem lines_setPacket (σ : SimState) (i : PacketId) (p : Packet) :
    (σ.setPacket i p).lines = σ.lines := rfl

theorem lines_setCore (σ : SimState) (c : CoreId) (co : Core) :
    (σ.setCore c co).lines = σ.lines := rfl

/-- The displacement decrement and fresh tag a packet receives when it
leaves a wire into a live downstream core: the highest-priority nonzero
component (x, then y, then z) moves one step toward zero and the tag
becomes the matching `*bound` tag (identity when the displacement is
already zero). -/
def exitUpdate (p : Packet) : Packet :=
  if p.dx > 0 then { p with dx := p.dx - 1, directionality := "eastbound" }
  else if p.dx < 0 then { p with dx := p.dx + 1, directionality := "westbound" }
  else if p.dy > 0 then { p with dy := p.dy - 1, directionality := "northbound" }
  else if p.dy < 0 then { p with dy := p.dy + 1, directionality := "southbound" }
  else if p.dz > 0 then { p with dz := p.dz - 1, directionality := "upbound" }
  else if p.dz < 0 then { p with dz := p.dz + 1, directionality := "downbound" }
  else p

/-- C3 (amended): at every tick, a packet whose parent is a wire and whose
routing_delay is 0 is — *when the wire's downstream core exists* —
disassociated from the wire (its parent is reassigned), has the
highest-priority nonzero displacement component decremented toward zero,
receives the matching fresh directionality tag, and is injected into the
downstream core (entry delay 2, appended to that core's wait buffer);
but when the downstream terminus is null (an unconnected edge wire) the
packet is **not** dropped: the step leaves the state completely unchanged
and the packet stays on the wire indefinitely. -/
theorem coreInject_packet (σ : SimState) (c : CoreId) (i : PacketId)
    (hi : i < σ.packetData.length) :
    (coreInject σ c i).packet i =
      { σ.packet i with routing_delay := 2, parent := Parent.core c } := by
  unfold coreInject SimState.modifyCore SimState.modifyPacket
  rw [packet_setCore, packet_setPacket_self _ _ _ hi]

theorem coreInject_core (σ : SimState) (c : CoreId) (i : PacketId)
    (hc : c < σ.cores.length) :
    (coreInject σ c i).core c =
      { σ.core c with wait_buffer := (σ.core c).wait_buffer ++ [i] } := by
  unfold coreInject SimState.modifyCore SimState.modifyPacket
  rw [core_setCore_self _ _ _ (by rw [cores_length_setPacket]; exact hc),
    core_setPacket]

theorem coreInject_lines (σ : SimState) (c : CoreId) (i : PacketId) :
    (coreInject σ c i).lines = σ.lines := rfl

set_option maxHeartbeats 1000000 in
theorem line_exit_behavior (σ : SimState) (i : PacketId) (l : LineId)
    (hp : (σ.packet i).parent = Parent.line l)
    (hd : (σ.packet i).routing_delay = 0)
    (hi : i < σ.packetData.length) :
    ((σ.line l).component_out = none → lineExitStep σ i = σ) ∧
    (∀ c, (σ.line l).component_out = some c → c < σ.cores.length →
      (lineExitStep σ i).packet i =
        { exitUpdate (σ.packet i) with
          routing_delay := 2, parent := Parent.core c } ∧
      ((lineExitStep σ i).core c).wait_buffer =
        (σ.core c).wait_buffer ++ [i] ∧
      (lineExitStep σ i).lines = σ.lines) := by
  constructor
  · intro hco
    simp [lineExitStep, hp, hd, lineDissassociate, hco]
  · intro c hco hc
    simp only [lineExitStep, hp, hd, lineDissassociate, hco, beq_self_eq_true,
      if_true, Nat.zero_eq]
    simp only [ne_eq, Option.some_ne_none, not_false_eq_true, and_true]
    unfold exitUpdate
    split_ifs with h1 h2 h3 h4 h5 h6 <;>
      refine ⟨?_, ?_, ?_⟩ <;>
      simp [coreInject_packet, coreInject_core, coreInject_lines,
        packet_setPacket_self, core_setPacket, lines_setPacket,
        packetData_length_setPacket, cores_length_setPacket, hi, hc]

/-- A one-packet state whose packet sits on wire 0 with expired delay;
the wire feeds core 0. -/
def c3WitState : SimState :=
  { packets := [0],
    packetData :=
      [{ dx := 1, dy := 0, dz := 0, routing_delay := 0, name := 1,
         parent := Parent.line 0, directionality := "east-exit" }],
    cores := [freshCore (List.replicate 6 none) (List.replicate 6 none) 1],
    lines := [{ freshLine 1 with component_out := some 0 }],
    delays := 0, output := [], t := 0 }

/-- Witness for `line_exit_behavior` at a concrete wire-resident packet. -/
theorem line_exit_behavior_witness :
    ((c3WitState.packet 0).parent = Parent.line 0 ∧
      (c3WitState.packet 0).routing_delay = 0 ∧
      0 < c3WitState.packetData.length) ∧
    (((c3WitState.line 0).component_out = none →
        lineExitStep c3WitState 0 = c3WitState) ∧
      (∀ c, (c3WitState.line 0).component_out = some c →
        c < c3WitState.cores.length →
        (lineExitStep c3WitState 0).packet 0 =
          { exitUpdate (c3WitState.packet 0) with
            routing_delay := 2, parent := Parent.core c } ∧
        ((lineExitStep c3WitState 0).core c).wait_buffer =
          (c3WitState.core c).wait_buffer ++ [0] ∧
        (lineExitStep c3WitState 0).lines = c3WitState.lines)) :=
  ⟨⟨by decide, by decide, by decide⟩,
    line_exit_behavior c3WitState 0 0 (by decide) (by decide) (by decide)⟩

/-! ### C10 — the loop runs its full budget and destroyed packets are
only skipped, never removed -/

/-- Packet `i` appears in none of a core's queues or staging slots. -/
def notInCore (co : Core) (i : PacketId) : Prop :=
  i ∉ co.send_buffer ∧ i ∉ co.wait_buffer ∧
  ∀ b ∈ co.packet_out_buffer, some i ∉ b.out

instance (co : Core) (i : PacketId) : Decidable (notInCore co i) := by
  unfold notInCore
  infer_instance

theorem notInCore_default (i : PacketId) : notInCore default i := by
  refine ⟨List.not_mem_nil i, List.not_mem_nil i, ?_⟩
  intro b hb
  have hb' : b = emptyBuffer := List.eq_of_mem_replicate hb
  subst hb'
  simp [emptyBuffer, N_CHANNELS]

/-- Generic transfer of a pointwise list property through `getD`. -/
theorem getD_prop {α : Type} {Q : α → Prop} (l : List α) (n : Nat) (d : α)
    (h : ∀ x ∈ l, Q x) (hd : Q d) : Q (l.getD n d) := by
  rw [List.getD_eq_getElem?_getD]
  cases hq : l[n]? with
  | none => simpa using hd
  | some x => simpa using h x (List.getElem?_mem hq)

/-- Generic transfer of a pointwise list property through `set`. -/
theorem forall_mem_set {α : Type} {Q : α → Prop} (l : List α) (n : Nat)
    (a : α) (h : ∀ x ∈ l, Q x) (ha : Q a) : ∀ x ∈ l.set n a, Q x := by
  intro x hx
  rcases List.mem_or_eq_of_mem_set hx with h1 | h1
  · exact h x h1
  · subst h1; exact ha

theorem mem_addToSlots (slots : List (Option PacketId)) (j k : PacketId)
    (h : some k ∈ addToSlots slots j) : some k ∈ slots ∨ k = j := by
  induction slots with
  | nil => simp [addToSlots] at h
  | cons s rest ih =>
      cases s with
      | none =>
          simp only [addToSlots, List.mem_cons] at h
          rcases h with h | h
          · exact Or.inr (Option.some.inj h)
          · exact Or.inl (List.mem_cons_of_mem _ h)
      | some m =>
          simp only [addToSlots, List.mem_cons] at h
          rcases h with h | h
          · exact Or.inl (h ▸ List.mem_cons_self _ _)
          · rcases ih h with h1 | h1
            · exact Or.inl (List.mem_cons_of_mem _ h1)
            · exact Or.inr h1

theorem not_mem_add (b : Buffer) (j i : PacketId) (hji : j ≠ i)
    (h : some i ∉ b.out) : some i ∉ (b.add j).out := by
  intro hmem
  rcases mem_addToSlots b.out j i hmem with h1 | h1
  · exact h h1
  · exact hji h1.symm

/-- The frame preserved around a destroyed packet during a tick: the
global packet list, the packet's own record, the loop counter, and the
packet's absence from every core's buffers. -/
def Keeps (i : PacketId) (ps : List PacketId) (p : Packet) (t0 : Nat)
    (σ : SimState) : Prop :=
  σ.packets = ps ∧ σ.packet i = p ∧ σ.t = t0 ∧
  ∀ co ∈ σ.cores, notInCore co i

theorem keeps_core {i : PacketId} {ps : List PacketId} {p : Packet}
    {t0 : Nat} {σ : SimState} (h : Keeps i ps p t0 σ) (c : CoreId) :
    notInCore (σ.core c) i :=
  getD_prop σ.cores c default h.2.2.2 (notInCore_default i)

theorem keeps_setPacket_ne {i : PacketId} {ps : List PacketId} {p : Packet}
    {t0 : Nat} {σ : SimState} {j : PacketId} {q : Packet}
    (hji : j ≠ i) (h : Keeps i ps p t0 σ) :
    Keeps i ps p t0 (σ.setPacket j q) := by
  refine ⟨h.1, ?_, h.2.2.1, h.2.2.2⟩
  rw [packet_setPacket_ne _ _ _ _ hji]
  exact h.2.1

theorem keeps_modifyCore {i : PacketId} {ps : List PacketId} {p : Packet}
    {t0 : Nat} {σ : SimState} {c : CoreId} {g : Core → Core}
    (h : Keeps i ps p t0 σ) (hg : notInCore (g (σ.core c)) i) :
    Keeps i ps p t0 (σ.modifyCore c g) := by
  refine ⟨h.1, h.2.1, h.2.2.1, ?_⟩
  exact forall_mem_set σ.cores c (g (σ.core c)) h.2.2.2 hg

theorem keeps_pushOutput {i : PacketId} {ps : List PacketId} {p : Packet}
    {t0 : Nat} {σ : SimState} {s : String} (h : Keeps i ps p t0 σ) :
    Keeps i ps p t0 (σ.pushOutput s) := h

theorem keeps_addDelay {i : PacketId} {ps : List PacketId} {p : Packet}
    {t0 : Nat} {σ : SimState} (h : Keeps i ps p t0 σ) :
    Keeps i ps p t0 σ.addDelay := h

/-- A `some` result of `forward` is the forwarded packet itself. -/
theorem forwardDir_some (σ : SimState) (c : CoreId) (j : PacketId) (d : Nat)
    (k : PacketId) (h : (forwardDir σ c j d).2 = some k) : k = j := by
  unfold forwardDir at h
  cases hl : (σ.core c).lines_out.getD d none with
  | none => simp only [hl] at h; simp at h
  | some l =>
      simp only [hl] at h
      split_ifs at h with hc
      exact (Option.some.inj h).symm

theorem coreForward_some (σ : SimState) (c : CoreId) (j k : PacketId)
    (h : (coreForward σ c j).2 = some k) : k = j := by
  simp only [coreForward] at h
  split_ifs at h <;>
    first
      | exact forwardDir_some _ _ _ _ _ h
      | simp at h

theorem forwardDir_keeps {i : PacketId} {ps : List PacketId} {p : Packet}
    {t0 : Nat} {σ : SimState} {c : CoreId} {j : PacketId} {d : Nat}
    (hji : j ≠ i) (h : Keeps i ps p t0 σ) :
    Keeps i ps p t0 (forwardDir σ c j d).1 := by
  have hni := keeps_core h c
  unfold forwardDir
  cases hl : (σ.core c).lines_out.getD d none with
  | none => simp only [hl]; exact keeps_setPacket_ne hji (keeps_pushOutput h)
  | some l =>
      simp only [hl]
      split_ifs with hc
      · refine keeps_modifyCore h ⟨hni.1, hni.2.1, ?_⟩
        refine forall_mem_set _ _ _ hni.2.2 ?_
        refine not_mem_add _ j i hji ?_
        refine getD_prop _ d emptyBuffer hni.2.2 ?_
        simp [emptyBuffer, N_CHANNELS]
      · exact h

theorem coreForward_keeps {i : PacketId} {ps : List PacketId} {p : Packet}
    {t0 : Nat} {σ : SimState} {c : CoreId} {j : PacketId}
    (hji : j ≠ i) (h : Keeps i ps p t0 σ) :
    Keeps i ps p t0 (coreForward σ c j).1 := by
  simp only [coreForward]
  split_ifs <;>
    first
      | exact forwardDir_keeps hji h
      | exact keeps_setPacket_ne hji h

set_option maxHeartbeats 3200000 in
theorem coreAdvance_keeps {i : PacketId} {ps : List PacketId} {p : Packet}
    {t0 : Nat} {σ : SimState} {c : CoreId} {j : PacketId}
    (hji : j ≠ i) (h : Keeps i ps p t0 σ) :
    Keeps i ps p t0 (coreAdvance σ c j).1 := by
  have hni := keeps_core h c
  simp only [coreAdvance]
  split_ifs <;>
    first
      | exact keeps_modifyCore (keeps_setPacket_ne hji h)
          ⟨hni.1, hni.2.1, hni.2.2⟩
      | exact keeps_addDelay (keeps_setPacket_ne hji h)
      | exact keeps_setPacket_ne hji h
      | exact h


theorem routeSendLoop_keeps {i : PacketId} {ps : List PacketId} {p : Packet}
    {t0 : Nat} (c : CoreId) (js : List PacketId) :
    ∀ (acc : List PacketId) (σ : SimState), i ∉ js → i ∉ acc →
      Keeps i ps p t0 σ →
      Keeps i ps p t0 (routeSendLoop σ c js acc).1 ∧
        i ∉ (routeSendLoop σ c js acc).2 := by
  induction js with
  | nil => intro acc σ _ hacc h; exact ⟨h, hacc⟩
  | cons j rest ih =>
      intro acc σ hjs hacc h
      have hji : j ≠ i := fun he => hjs (he ▸ List.mem_cons_self _ _)
      have hrest : i ∉ rest := fun hr => hjs (List.mem_cons_of_mem _ hr)
      have hK : Keeps i ps p t0 (coreForward σ c j).1 := coreForward_keeps hji h
      rcases hcf : coreForward σ c j with ⟨σ1, o⟩
      rw [hcf] at hK
      cases o with
      | none =>
          simp only [routeSendLoop, hcf]
          exact ih acc σ1 hrest hacc hK
      | some k =>
          have hk : k = j := coreForward_some σ c j k (by rw [hcf])
          simp only [routeSendLoop, hcf]
          refine ih (acc ++ [k]) σ1 hrest ?_ hK
          intro hmem
          rcases List.mem_append.mp hmem with hm | hm
          · exact hacc hm
          · rw [List.mem_singleton] at hm
            exact hji (hk.symm.trans hm.symm)

theorem routeWaitLoop_keeps {i : PacketId} {ps : List PacketId} {p : Packet}
    {t0 : Nat} (c : CoreId) (js : List PacketId) :
    ∀ (acc : List PacketId) (σ : SimState), i ∉ js → i ∉ acc →
      Keeps i ps p t0 σ →
      Keeps i ps p t0 (routeWaitLoop σ c js acc).1 ∧
        i ∉ (routeWaitLoop σ c js acc).2 := by
  induction js with
  | nil => intro acc σ _ hacc h; exact ⟨h, hacc⟩
  | cons j rest ih =>
      intro acc σ hjs hacc h
      have hji : j ≠ i := fun he => hjs (he ▸ List.mem_cons_self _ _)
      have hrest : i ∉ rest := fun hr => hjs (List.mem_cons_of_mem _ hr)
      have hacc' : i ∉ acc ++ [j] := by
        intro hmem
        rcases List.mem_append.mp hmem with hm | hm
        · exact hacc hm
        · rw [List.mem_singleton] at hm
          exact hji hm.symm
      by_cases hdel : (σ.packet j).routing_delay > 0
      · simp only [routeWaitLoop, hdel, if_true]
        exact ih (acc ++ [j]) _ hrest hacc' (keeps_setPacket_ne hji h)
      · simp only [routeWaitLoop, hdel, if_false]
        have hKa : Keeps i ps p t0 (coreAdvance σ c j).1 :=
          coreAdvance_keeps hji h
        rcases hca : coreAdvance σ c j with ⟨σ1, ob⟩
        rw [hca] at hKa
        cases ob with
        | false =>
            simp only []
            exact ih (acc ++ [j]) σ1 hrest hacc' hKa
        | true =>
            simp only []
            have hKf : Keeps i ps p t0 (coreForward σ1 c j).1 :=
              coreForward_keeps hji hKa
            rcases hcf : coreForward σ1 c j with ⟨σ2, o⟩
            rw [hcf] at hKf
            cases o with
            | none => exact ih acc σ2 hrest hacc hKf
            | some k =>
                have hk : k = j := coreForward_some σ1 c j k (by rw [hcf])
                have hni := keeps_core hKf c
                refine ih acc _ hrest hacc ?_
                refine keeps_modifyCore (keeps_addDelay hKf) ?_
                refine ⟨?_, hni.2.1, hni.2.2⟩
                intro hmem
                rcases List.mem_append.mp hmem with hm | hm
                · exact hni.1 hm
                · rw [List.mem_singleton] at hm
                  exact hji (hk.symm.trans hm.symm)

theorem clearMerges_keeps {i : PacketId} {ps : List PacketId} {p : Packet}
    {t0 : Nat} {σ : SimState} {c : CoreId} (h : Keeps i ps p t0 σ) :
    Keeps i ps p t0 (clearMerges σ c) := by
  have hni := keeps_core h c
  exact keeps_modifyCore h ⟨hni.1, hni.2.1, hni.2.2⟩

set_option maxHeartbeats 3200000 in
theorem coreRoute_keeps {i : PacketId} {ps : List PacketId} {p : Packet}
    {t0 : Nat} (σ : SimState) (c : CoreId)
    (h : Keeps i ps p t0 σ) : Keeps i ps p t0 (coreRoute σ c) := by
  have hni := keeps_core h c
  obtain ⟨hK1, hnr1⟩ := routeSendLoop_keeps c (σ.core c).send_buffer []
    σ hni.1 (List.not_mem_nil i) h
  have hni1 := keeps_core hK1 c
  have hK1m : Keeps i ps p t0
      ((routeSendLoop σ c (σ.core c).send_buffer []).1.modifyCore c
        fun co => { co with
          send_buffer := (routeSendLoop σ c (σ.core c).send_buffer []).2 }) :=
    keeps_modifyCore hK1 ⟨hnr1, hni1.2.1, hni1.2.2⟩
  obtain ⟨hK2, hnr2⟩ := routeWaitLoop_keeps c
    (((routeSendLoop σ c (σ.core c).send_buffer []).1.modifyCore c
        fun co => { co with
          send_buffer := (routeSendLoop σ c (σ.core c).send_buffer []).2 }).core
      c).wait_buffer []
    ((routeSendLoop σ c (σ.core c).send_buffer []).1.modifyCore c
      fun co => { co with
        send_buffer := (routeSendLoop σ c (σ.core c).send_buffer []).2 })
    (keeps_core hK1m c).2.1 (List.not_mem_nil i) hK1m
  have hni2 := keeps_core hK2 c
  simp only [coreRoute]
  exact clearMerges_keeps (keeps_modifyCore hK2 ⟨hni2.1, hnr2, hni2.2.2⟩)

theorem lineInject_some (σ : SimState) (l : LineId) (j k : PacketId)
    (h : (lineInject σ l j).2 = some k) : k = j := by
  unfold lineInject at h
  split_ifs at h with hc
  exact (Option.some.inj h).symm

theorem lineInject_keeps {i : PacketId} {ps : List PacketId} {p : Packet}
    {t0 : Nat} {σ : SimState} {l : LineId} {j : PacketId}
    (hji : j ≠ i) (h : Keeps i ps p t0 σ) :
    Keeps i ps p t0 (lineInject σ l j).1 := by
  unfold lineInject
  split_ifs with hc
  · exact keeps_setPacket_ne hji h
  · exact h

theorem sendOutPackets_keeps {i : PacketId} {ps : List PacketId} {p : Packet}
    {t0 : Nat} (c : CoreId) (x : Nat) (l : LineId) (js : List PacketId) :
    ∀ σ, i ∉ js → Keeps i ps p t0 σ →
      Keeps i ps p t0 (sendOutPackets σ c x l js) := by
  induction js with
  | nil => intro σ _ h; exact h
  | cons j rest ih =>
      intro σ hjs h
      have hji : j ≠ i := fun he => hjs (he ▸ List.mem_cons_self _ _)
      have hrest : i ∉ rest := fun hr => hjs (List.mem_cons_of_mem _ hr)
      have hKl : Keeps i ps p t0 (lineInject σ l j).1 := lineInject_keeps hji h
      rcases hli : lineInject σ l j with ⟨σ1, o⟩
      rw [hli] at hKl
      cases o with
      | none => simp only [sendOutPackets, hli]; exact ih σ1 hrest hKl
      | some k =>
          have hk : k = j := lineInject_some σ l j k (by rw [hli])
          simp only [sendOutPackets, hli]
          have hni := keeps_core hKl c
          refine ih _ hrest ?_
          refine keeps_modifyCore (keeps_addDelay hKl) ⟨hni.1, hni.2.1, ?_⟩
          refine forall_mem_set _ _ _ hni.2.2 ?_
          refine not_mem_add _ k i (hk ▸ hji) ?_
          exact getD_prop _ x emptyBuffer hni.2.2
            (by simp [emptyBuffer, N_CHANNELS])

theorem sendOutLine_keeps {i : PacketId} {ps : List PacketId} {p : Packet}
    {t0 : Nat} (σ : SimState) (c : CoreId) (x : Nat)
    (h : Keeps i ps p t0 σ) : Keeps i ps p t0 (sendOutLine σ c x) := by
  have hni := keeps_core h c
  unfold sendOutLine
  cases hl : (σ.core c).lines_out.getD x none with
  | none => simp only [hl]; exact h
  | some l =>
      simp only [hl]
      refine sendOutPackets_keeps c x l _ _ ?_ ?_
      · intro hmem
        rcases List.mem_filterMap.mp hmem with ⟨a, ha, hae⟩
        simp only [id] at hae
        subst hae
        exact (getD_prop _ x emptyBuffer hni.2.2
          (by simp [emptyBuffer, N_CHANNELS])) ha
      · refine keeps_modifyCore h ⟨hni.1, hni.2.1, ?_⟩
        refine forall_mem_set _ _ _ hni.2.2 ?_
        simp [Buffer.flush, Buffer.clear]

theorem foldl_keeps {i : PacketId} {ps : List PacketId} {p : Packet}
    {t0 : Nat} {α : Type} (f : SimState → α → SimState)
    (hf : ∀ σ a, Keeps i ps p t0 σ → Keeps i ps p t0 (f σ a)) :
    ∀ (l : List α) (σ : SimState),
      Keeps i ps p t0 σ → Keeps i ps p t0 (l.foldl f σ) := by
  intro l
  induction l with
  | nil => intro σ h; exact h
  | cons a rest ih => intro σ h; exact ih (f σ a) (hf σ a h)

theorem coreSendOut_keeps {i : PacketId} {ps : List PacketId} {p : Packet}
    {t0 : Nat} (σ : SimState) (c : CoreId)
    (h : Keeps i ps p t0 σ) : Keeps i ps p t0 (coreSendOut σ c) :=
  foldl_keeps _ (fun σ x h => sendOutLine_keeps σ c x h) _ σ h

theorem coreInject_keeps {i : PacketId} {ps : List PacketId} {p : Packet}
    {t0 : Nat} {σ : SimState} {c : CoreId} {j : PacketId}
    (hji : j ≠ i) (h : Keeps i ps p t0 σ) :
    Keeps i ps p t0 (coreInject σ c j) := by
  have hK1 : Keeps i ps p t0
      (σ.modifyPacket j fun q =>
        { q with routing_delay := 2, parent := Parent.core c }) :=
    keeps_setPacket_ne hji h
  have hni := keeps_core hK1 c
  refine keeps_modifyCore hK1 ⟨hni.1, ?_, hni.2.2⟩
  intro hmem
  rcases List.mem_append.mp hmem with hm | hm
  · exact hni.2.1 hm
  · rw [List.mem_singleton] at hm
    exact hji hm.symm

theorem decrementLineDelays_keeps {i : PacketId} {ps : List PacketId}
    {p : Packet} {t0 : Nat} (hpar : p.parent = Parent.none) (σ : SimState)
    (h : Keeps i ps p t0 σ) : Keeps i ps p t0 (decrementLineDelays σ) := by
  unfold decrementLineDelays
  refine foldl_keeps _ ?_ σ.packets σ h
  intro σ1 j h1
  by_cases hji : j = i
  · subst hji
    have hpj : (σ1.packet j).parent = Parent.none := by
      rw [h1.2.1]; exact hpar
    simp only [hpj]
    exact h1
  · cases hpj : (σ1.packet j).parent with
    | core c => simp only [hpj]; exact h1
    | none => simp only [hpj]; exact h1
    | line l => simp only [hpj]; exact keeps_setPacket_ne hji h1

theorem lineExitStep_keeps {i : PacketId} {ps : List PacketId} {p : Packet}
    {t0 : Nat} (hpar : p.parent = Parent.none) (σ : SimState) (j : PacketId)
    (h : Keeps i ps p t0 σ) : Keeps i ps p t0 (lineExitStep σ j) := by
  by_cases hji : j = i
  · subst hji
    have hpj : (σ.packet j).parent = Parent.none := by
      rw [h.2.1]; exact hpar
    simp only [lineExitStep, hpj]
    exact h
  · cases hpj : (σ.packet j).parent with
    | core c => simp only [lineExitStep, hpj]; exact h
    | none => simp only [lineExitStep, hpj]; exact h
    | line l =>
        simp only [lineExitStep, hpj, lineDissassociate]
        by_cases hd0 : ((σ.packet j).routing_delay == 0) = true
        · rw [if_pos hd0]
          cases hco : (σ.line l).component_out with
          | none =>
              simp only [hco]
              split_ifs <;>
                first
                  | exact keeps_setPacket_ne hji h
                  | exact h
          | some c =>
              simp only [hco]
              split_ifs <;>
                first
                  | exact coreInject_keeps hji (keeps_setPacket_ne hji h)
                  | exact coreInject_keeps hji h
        · rw [if_neg hd0]
          exact h

theorem visitStep_keeps {i : PacketId} {ps : List PacketId} {p : Packet}
    {t0 : Nat} (hpar : p.parent = Parent.none) (σ : SimState)
    (h : Keeps i ps p t0 σ) : Keeps i ps p t0 (visitStep σ).1 := by
  unfold visitStep
  have main : ∀ (l : List PacketId) (acc : SimState × List CoreId),
      Keeps i ps p t0 acc.1 →
      Keeps i ps p t0
        (l.foldl
          (fun acc i2 =>
            let σ1 := lineExitStep acc.1 i2
            let tv :=
              match (σ1.packet i2).parent with
              | Parent.core c => if c ∈ acc.2 then acc.2 else acc.2 ++ [c]
              | _ => acc.2
            (σ1, tv))
          acc).1 := by
    intro l
    induction l with
    | nil => intro acc hacc; exact hacc
    | cons a rest ih =>
        intro acc hacc
        exact ih _ (lineExitStep_keeps hpar acc.1 a hacc)
  exact main σ.packets (σ, []) h

theorem tick_keeps {i : PacketId} {ps : List PacketId} {p : Packet}
    {t0 : Nat} (hpar : p.parent = Parent.none)
    (sh : List CoreId → List CoreId) (σ : SimState)
    (h : Keeps i ps p t0 σ) : Keeps i ps p (t0 + 1) (tick sh σ) := by
  have h1 : Keeps i ps p t0
      (if σ.t % 10 == 0 then σ.pushOutput (toString σ.t) else σ) := by
    split_ifs
    · exact keeps_pushOutput h
    · exact h
  have h2 := decrementLineDelays_keeps hpar
    (if σ.t % 10 == 0 then σ.pushOutput (toString σ.t) else σ) h1
  have h3 := visitStep_keeps hpar
    (decrementLineDelays
      (if σ.t % 10 == 0 then σ.pushOutput (toString σ.t) else σ)) h2
  have h4 := foldl_keeps (fun σ c => coreRoute σ c)
    (fun σ c hk => coreRoute_keeps σ c hk)
    (visitStep (decrementLineDelays
      (if σ.t % 10 == 0 then σ.pushOutput (toString σ.t) else σ))).2
    (visitStep (decrementLineDelays
      (if σ.t % 10 == 0 then σ.pushOutput (toString σ.t) else σ))).1
    h3
  have h5 := foldl_keeps (fun σ c => coreSendOut σ c)
    (fun σ c hk => coreSendOut_keeps σ c hk)
    (sh (visitStep (decrementLineDelays
      (if σ.t % 10 == 0 then σ.pushOutput (toString σ.t) else σ))).2)
    ((visitStep (decrementLineDelays
      (if σ.t % 10 == 0 then σ.pushOutput (toString σ.t) else σ))).2.foldl
        (fun σ c => coreRoute σ c)
        (visitStep (decrementLineDelays
          (if σ.t % 10 == 0 then σ.pushOutput (toString σ.t) else σ))).1)
    h4
  exact ⟨h5.1, h5.2.1, congrArg Nat.succ h5.2.2.1, h5.2.2.2⟩

theorem tickN_keeps {i : PacketId} {ps : List PacketId} {p : Packet}
    (hpar : p.parent = Parent.none) (sh : List CoreId → List CoreId) :
    ∀ (n : Nat) (t0 : Nat) (σ : SimState), Keeps i ps p t0 σ →
      Keeps i ps p (t0 + n) (tickN sh n σ) := by
  intro n
  induction n with
  | zero => intro t0 σ h; exact h
  | succ n ih =>
      intro t0 σ h
      have h1 := tick_keeps hpar sh σ h
      have h2 := ih (t0 + 1) (tick sh σ) h1
      have : t0 + 1 + n = t0 + (n + 1) := by omega
      rw [this] at h2
      exact h2


/-- C10: `simulate` executes exactly `timesteps` ticks — the loop counter
advances by `n` from every starting state, whether or not any packet is
live, with no early exit — the global packet list is never shrunk, and a
destroyed packet (parent `None`, held in no core buffer) is skipped by
every subsequent tick: its record is unchanged after any number of
ticks and it stays outside every buffer. -/
theorem simulate_full_budget_dead_skipped
    (sh : List CoreId → List CoreId) (n : Nat) (σ : SimState) (i : PacketId)
    (hdead : (σ.packet i).parent = Parent.none)
    (hnb : ∀ co ∈ σ.cores, notInCore co i) :
    (simulate sh n σ).t = σ.t + n ∧
    (simulate sh n σ).packets = σ.packets ∧
    (simulate sh n σ).packet i = σ.packet i ∧
    ∀ co ∈ (simulate sh n σ).cores, notInCore co i := by
  have h0 : Keeps i σ.packets (σ.packet i) σ.t σ := ⟨rfl, rfl, rfl, hnb⟩
  have hn := tickN_keeps hdead sh n σ.t σ h0
  exact ⟨hn.2.2.1, hn.1, hn.2.1, hn.2.2.2⟩

/-- A state holding a single destroyed packet. -/
def c10State : SimState :=
  { packets := [0],
    packetData :=
      [{ dx := 0, dy := 0, dz := 0, routing_delay := 0, name := 1,
         parent := Parent.none, directionality := "down-exit" }],
    cores := [freshCore (List.replicate 6 none) (List.replicate 6 none) 1],
    lines := [], delays := 0, output := [], t := 0 }

/-- Witness for `simulate_full_budget_dead_skipped` over five ticks of a
state whose only packet is destroyed. -/
theorem simulate_full_budget_dead_skipped_witness :
    ((c10State.packet 0).parent = Parent.none ∧
      ∀ co ∈ c10State.cores, notInCore co 0) ∧
    ((simulate (fun l => l) 5 c10State).t = c10State.t + 5 ∧
      (simulate (fun l => l) 5 c10State).packets = c10State.packets ∧
      (simulate (fun l => l) 5 c10State).packet 0 = c10State.packet 0 ∧
      ∀ co ∈ (simulate (fun l => l) 5 c10State).cores, notInCore co 0) :=
  ⟨⟨by decide, by decide⟩,
    simulate_full_budget_dead_skipped (fun l => l) 5 c10State 0
      (by decide) (by decide)⟩

/-! ### C7 — latency lower bound: definitions -/

/-- Remaining Manhattan displacement of a packet. -/
def pdist (p : Packet) : Nat :=
  p.dx.natAbs + p.dy.natAbs + p.dz.natAbs

/-- Does the tag contain `exit` (bypassing arbitration in `advance`)? -/
def isExitTag (s : String) : Bool := strContains s "exit"

/-- Every directionality tag the simulator ever assigns: the six fresh
`*bound` tags, the four corner-turn intermediates, and the seven exit
tags. -/
def TagSet : List String :=
  [ "eastbound", "westbound", "northbound", "southbound", "upbound",
    "downbound", "north", "south", "up", "down", "east-exit", "west-exit",
    "north-exit", "south-exit", "up-exit", "down-exit", "self-exit" ]

/-- All six merge registers clear. -/
def mergesClear (co : Core) : Prop :=
  co.forward_north_merge = none ∧ co.forward_east_merge = none ∧
  co.forward_south_merge = none ∧ co.forward_west_merge = none ∧
  co.forward_up_merge = none ∧ co.forward_down_merge = none

/-- A core with no packet anywhere in it (buffers in the exact
freshly-constructed shape). -/
def coreIdle (co : Core) : Prop :=
  co.send_buffer = [] ∧ co.wait_buffer = [] ∧
  co.packet_out_buffer = List.replicate 6 emptyBuffer ∧ mergesClear co

/-- A core whose only resident packet is `i`, sitting in the wait
buffer. -/
def coreHome (co : Core) (i : PacketId) : Prop :=
  co.send_buffer = [] ∧ co.wait_buffer = [i] ∧
  co.packet_out_buffer = List.replicate 6 emptyBuffer ∧ mergesClear co

/-- Static facts about the wires: every channel list still holds an empty
slot (they are never written, see `lineInject`), and downstream termini
are valid core indices. -/
def linesOk (σ : SimState) : Prop :=
  ∀ l ∈ σ.lines, (none ∈ l.channels) ∧
    (∀ c, l.component_out = some c → c < σ.cores.length)

def coresIdleExcept (σ : SimState) (c : CoreId) : Prop :=
  ∀ c2, c2 < σ.cores.length → c2 ≠ c → coreIdle (σ.core c2)

def allCoresIdle (σ : SimState) : Prop :=
  ∀ c2, c2 < σ.cores.length → coreIdle (σ.core c2)

/-- Location/phase part of the single-packet invariant. -/
def PhaseOk (σ : SimState) (i : PacketId) : Prop :=
  match (σ.packet i).parent with
  | Parent.core c =>
      c < σ.cores.length ∧ coreHome (σ.core c) i ∧ coresIdleExcept σ c
  | Parent.line _l =>
      allCoresIdle σ ∧ 1 ≤ pdist (σ.packet i) ∧
      ((σ.packet i).routing_delay = 1 ∨
        ((σ.packet i).routing_delay = 0 ∧
          (σ.line _l).component_out = none))
  | Parent.none => allCoresIdle σ

/-- The single-packet ("no other traffic") invariant: `i` is the only
packet in the world, every buffer except possibly its own wait-buffer
slot is empty, all merge registers are clear, and the wires are in their
permanent all-empty state. -/
def Inv (σ : SimState) (i : PacketId) : Prop :=
  σ.packets = [i] ∧ i < σ.packetData.length ∧ linesOk σ ∧
  (σ.packet i).directionality ∈ TagSet ∧ PhaseOk σ i

/-- Lower bound on the number of ticks until the packet can be destroyed
at its destination: remaining in-core delay, plus 8 ticks per remaining
displacement unit, plus the cost of finishing the current pipeline stage
(1 tick to leave via an exit tag, at least 8 = 1 + 6 + 1 through one more
merge pass otherwise). -/
def rho (σ : SimState) (i : PacketId) : Nat :=
  match (σ.packet i).parent with
  | Parent.core _ =>
      (σ.packet i).routing_delay + 8 * pdist (σ.packet i) +
        (if isExitTag (σ.packet i).directionality then 1 else 8)
  | Parent.line _ => 8 * pdist (σ.packet i)
  | Parent.none => 0

/-- Shape facts common to every operation of a tick: the global packet
list, the wire table, and the table sizes never change. -/
def SameShape (σ σ2 : SimState) : Prop :=
  σ2.packets = σ.packets ∧ σ2.lines = σ.lines ∧
  σ2.packetData.length = σ.packetData.length ∧
  σ2.cores.length = σ.cores.length

theorem sameShape_rfl (σ : SimState) : SameShape σ σ := ⟨rfl, rfl, rfl, rfl⟩

theorem sameShape_trans {σ1 σ2 σ3 : SimState} (h1 : SameShape σ1 σ2)
    (h2 : SameShape σ2 σ3) : SameShape σ1 σ3 :=
  ⟨h2.1.trans h1.1, h2.2.1.trans h1.2.1, h2.2.2.1.trans h1.2.2.1,
    h2.2.2.2.trans h1.2.2.2⟩

theorem sameShape_setPacket (σ : SimState) (j : PacketId) (p : Packet) :
    SameShape σ (σ.setPacket j p) :=
  ⟨rfl, rfl, packetData_length_setPacket σ j p, rfl⟩

theorem sameShape_setCore (σ : SimState) (c : CoreId) (co : Core) :
    SameShape σ (σ.setCore c co) :=
  ⟨rfl, rfl, rfl, cores_length_setCore σ c co⟩

theorem sameShape_pushOutput (σ : SimState) (s : String) :
    SameShape σ (σ.pushOutput s) := sameShape_rfl σ

theorem sameShape_addDelay (σ : SimState) :
    SameShape σ σ.addDelay := sameShape_rfl σ

theorem sameShape_modifyPacket (σ : SimState) (j : PacketId)
    (f : Packet → Packet) : SameShape σ (σ.modifyPacket j f) :=
  sameShape_setPacket σ j _

theorem sameShape_modifyCore (σ : SimState) (c : CoreId) (g : Core → Core) :
    SameShape σ (σ.modifyCore c g) :=
  sameShape_setCore σ c _

theorem sameShape_lineInject (σ : SimState) (l : LineId) (j : PacketId) :
    SameShape σ (lineInject σ l j).1 := by
  unfold lineInject
  split_ifs
  · exact sameShape_modifyPacket σ j _
  · exact sameShape_rfl σ

theorem sameShape_coreInject (σ : SimState) (c : CoreId) (j : PacketId) :
    SameShape σ (coreInject σ c j) :=
  sameShape_trans (sameShape_modifyPacket σ j _) (sameShape_modifyCore _ c _)

theorem sameShape_clearMerges (σ : SimState) (c : CoreId) :
    SameShape σ (clearMerges σ c) :=
  sameShape_modifyCore σ c _

theorem sameShape_forwardDir (σ : SimState) (c : CoreId) (j : PacketId)
    (d : Nat) : SameShape σ (forwardDir σ c j d).1 := by
  unfold forwardDir
  cases hl : (σ.core c).lines_out.getD d none with
  | none =>
      simp only [hl]
      exact sameShape_trans (sameShape_pushOutput σ _)
        (sameShape_modifyPacket _ j _)
  | some l =>
      simp only [hl]
      split_ifs
      · exact sameShape_modifyCore σ c _
      · exact sameShape_rfl σ

theorem sameShape_coreForward (σ : SimState) (c : CoreId) (j : PacketId) :
    SameShape σ (coreForward σ c j).1 := by
  simp only [coreForward]
  split_ifs
  exacts [sameShape_forwardDir σ c j 1, sameShape_forwardDir σ c j 2,
    sameShape_forwardDir σ c j 0, sameShape_forwardDir σ c j 3,
    sameShape_forwardDir σ c j 4, sameShape_forwardDir σ c j 5,
    sameShape_modifyPacket σ j _]

set_option maxHeartbeats 3200000 in
theorem sameShape_coreAdvance (σ : SimState) (c : CoreId) (j : PacketId) :
    SameShape σ (coreAdvance σ c j).1 := by
  simp only [coreAdvance]
  split_ifs <;>
    first
      | exact sameShape_trans (sameShape_setPacket σ j _)
          (sameShape_modifyCore _ _ _)
      | exact sameShape_trans (sameShape_setPacket σ j _) (sameShape_addDelay _)
      | exact sameShape_setPacket σ j _
      | exact sameShape_rfl σ

theorem sameShape_routeSendLoop (c : CoreId) (js : List PacketId) :
    ∀ (acc : List PacketId) (σ : SimState),
      SameShape σ (routeSendLoop σ c js acc).1 := by
  induction js with
  | nil => intro acc σ; exact sameShape_rfl σ
  | cons j rest ih =>
      intro acc σ
      have h1 := sameShape_coreForward σ c j
      rcases hcf : coreForward σ c j with ⟨σ1, o⟩
      rw [hcf] at h1
      cases o with
      | none => simp only [routeSendLoop, hcf]; exact sameShape_trans h1 (ih acc σ1)
      | some k =>
          simp only [routeSendLoop, hcf]
          exact sameShape_trans h1 (ih (acc ++ [k]) σ1)

theorem sameShape_routeWaitLoop (c : CoreId) (js : List PacketId) :
    ∀ (acc : List PacketId) (σ : SimState),
      SameShape σ (routeWaitLoop σ c js acc).1 := by
  induction js with
  | nil => intro acc σ; exact sameShape_rfl σ
  | cons j rest ih =>
      intro acc σ
      by_cases hdel : (σ.packet j).routing_delay > 0
      · simp only [routeWaitLoop, hdel, if_true]
        exact sameShape_trans (sameShape_modifyPacket σ j _) (ih (acc ++ [j]) _)
      · simp only [routeWaitLoop, hdel, if_false]
        have h1 := sameShape_coreAdvance σ c j
        rcases hca : coreAdvance σ c j with ⟨σ1, ob⟩
        rw [hca] at h1
        cases ob with
        | false =>
            simp only []
            exact sameShape_trans h1 (ih (acc ++ [j]) σ1)
        | true =>
            simp only []
            have h2 := sameShape_coreForward σ1 c j
            rcases hcf : coreForward σ1 c j with ⟨σ2, o⟩
            rw [hcf] at h2
            cases o with
            | none =>
                simp only []
                exact sameShape_trans h1 (sameShape_trans h2 (ih acc σ2))
            | some k =>
                simp only []
                refine sameShape_trans h1 (sameShape_trans h2
                  (sameShape_trans (sameShape_addDelay σ2)
                    (sameShape_trans (sameShape_modifyCore _ c _) (ih acc _))))

theorem sameShape_coreRoute (σ : SimState) (c : CoreId) :
    SameShape σ (coreRoute σ c) := by
  simp only [coreRoute]
  refine sameShape_trans
    (sameShape_routeSendLoop c (σ.core c).send_buffer [] σ) ?_
  refine sameShape_trans
    (sameShape_modifyCore (routeSendLoop σ c (σ.core c).send_buffer []).1 c
      (fun co => { co with
        send_buffer := (routeSendLoop σ c (σ.core c).send_buffer []).2 })) ?_
  refine sameShape_trans
    (sameShape_routeWaitLoop c
      (((routeSendLoop σ c (σ.core c).send_buffer []).1.modifyCore c
        (fun co => { co with
          send_buffer :=
            (routeSendLoop σ c (σ.core c).send_buffer []).2 })).core
          c).wait_buffer
      []
      ((routeSendLoop σ c (σ.core c).send_buffer []).1.modifyCore c
        (fun co => { co with
          send_buffer := (routeSendLoop σ c (σ.core c).send_buffer []).2 })))
    ?_
  exact sameShape_trans (sameShape_modifyCore _ c _) (sameShape_clearMerges _ c)

theorem sameShape_sendOutPackets (c : CoreId) (x : Nat) (l : LineId)
    (js : List PacketId) : ∀ σ, SameShape σ (sendOutPackets σ c x l js) := by
  induction js with
  | nil => intro σ; exact sameShape_rfl σ
  | cons j rest ih =>
      intro σ
      have h1 := sameShape_lineInject σ l j
      rcases hli : lineInject σ l j with ⟨σ1, o⟩
      rw [hli] at h1
      cases o with
      | none => simp only [sendOutPackets, hli]; exact sameShape_trans h1 (ih σ1)
      | some k =>
          simp only [sendOutPackets, hli]
          exact sameShape_trans h1 (sameShape_trans (sameShape_addDelay σ1)
            (sameShape_trans (sameShape_modifyCore _ c _) (ih _)))

theorem sameShape_sendOutLine (σ : SimState) (c : CoreId) (x : Nat) :
    SameShape σ (sendOutLine σ c x) := by
  unfold sendOutLine
  cases hl : (σ.core c).lines_out.getD x none with
  | none => exact sameShape_rfl σ
  | some l =>
      simp only [hl]
      exact sameShape_trans (sameShape_modifyCore σ c _)
        (sameShape_sendOutPackets c x l _ _)

theorem sameShape_coreSendOut (σ : SimState) (c : CoreId) :
    SameShape σ (coreSendOut σ c) := by
  unfold coreSendOut
  have main : ∀ (xs : List Nat) (σ : SimState),
      SameShape σ (xs.foldl (fun σ x => sendOutLine σ c x) σ) := by
    intro xs
    induction xs with
    | nil => intro σ; exact sameShape_rfl σ
    | cons x rest ih =>
        intro σ
        exact sameShape_trans (sameShape_sendOutLine σ c x) (ih _)
  exact main (List.range 6) σ

theorem sameShape_lineExitStep (σ : SimState) (j : PacketId) :
    SameShape σ (lineExitStep σ j) := by
  cases hpj : (σ.packet j).parent with
  | core c => simp only [lineExitStep, hpj]; exact sameShape_rfl σ
  | none => simp only [lineExitStep, hpj]; exact sameShape_rfl σ
  | line l =>
      simp only [lineExitStep, hpj, lineDissassociate]
      by_cases hd0 : ((σ.packet j).routing_delay == 0) = true
      · rw [if_pos hd0]
        cases hco : (σ.line l).component_out with
        | none =>
            simp only [hco]
            split_ifs <;>
              first
                | exact sameShape_setPacket σ j _
                | exact sameShape_rfl σ
        | some c =>
            simp only [hco]
            split_ifs <;>
              first
                | exact sameShape_trans (sameShape_setPacket σ j _)
                    (sameShape_coreInject _ c j)
                | exact sameShape_coreInject σ c j
      · rw [if_neg hd0]
        exact sameShape_rfl σ

theorem sameShape_decrementLineDelays (σ : SimState) :
    SameShape σ (decrementLineDelays σ) := by
  unfold decrementLineDelays
  have main : ∀ (js : List PacketId) (σ : SimState),
      SameShape σ (js.foldl
        (fun σ i =>
          match (σ.packet i).parent with
          | Parent.line _ =>
              σ.modifyPacket i fun p =>
                { p with routing_delay := p.routing_delay - 1 }
          | _ => σ) σ) := by
    intro js
    induction js with
    | nil => intro σ; exact sameShape_rfl σ
    | cons j rest ih =>
        intro σ
        refine sameShape_trans ?_ (ih _)
        cases hpj : (σ.packet j).parent with
        | line l => simp only [hpj]; exact sameShape_modifyPacket σ j _
        | core c => simp only [hpj]; exact sameShape_rfl σ
        | none => simp only [hpj]; exact sameShape_rfl σ
  exact main σ.packets σ

theorem sameShape_visitStep (σ : SimState) :
    SameShape σ (visitStep σ).1 := by
  unfold visitStep
  have main : ∀ (js : List PacketId) (acc : SimState × List CoreId),
      SameShape acc.1 ((js.foldl
        (fun acc i2 =>
          let σ1 := lineExitStep acc.1 i2
          let tv :=
            match (σ1.packet i2).parent with
            | Parent.core c => if c ∈ acc.2 then acc.2 else acc.2 ++ [c]
            | _ => acc.2
          (σ1, tv)) acc)).1 := by
    intro js
    induction js with
    | nil => intro acc; exact sameShape_rfl acc.1
    | cons j rest ih =>
        intro acc
        exact sameShape_trans (sameShape_lineExitStep acc.1 j) (ih _)
  exact main σ.packets (σ, [])

theorem sameShape_foldl_route (cs : List CoreId) :
    ∀ σ, SameShape σ (cs.foldl (fun σ c => coreRoute σ c) σ) := by
  induction cs with
  | nil => intro σ; exact sameShape_rfl σ
  | cons c rest ih =>
      intro σ
      simp only [List.foldl]
      exact sameShape_trans (sameShape_coreRoute σ c) (ih (coreRoute σ c))

theorem sameShape_foldl_sendOut (cs : List CoreId) :
    ∀ σ, SameShape σ (cs.foldl (fun σ c => coreSendOut σ c) σ) := by
  induction cs with
  | nil => intro σ; exact sameShape_rfl σ
  | cons c rest ih =>
      intro σ
      simp only [List.foldl]
      exact sameShape_trans (sameShape_coreSendOut σ c) (ih (coreSendOut σ c))

theorem sameShape_tick (sh : List CoreId → List CoreId) (σ : SimState) :
    SameShape σ (tick sh σ) := by
  simp only [tick]
  set σa := (if σ.t % 10 == 0 then σ.pushOutput (toString σ.t) else σ) with hσa
  set σb := decrementLineDelays σa with hσb
  set sv := visitStep σb with hsv
  set σc := sv.2.foldl (fun σ c => coreRoute σ c) sv.1 with hσc
  set σd := (sh sv.2).foldl (fun σ c => coreSendOut σ c) σc with hσd
  have h0 : SameShape σ σa := by
    rw [hσa]
    split_ifs
    · exact sameShape_pushOutput σ _
    · exact sameShape_rfl σ
  have h1 : SameShape σa σb := by
    rw [hσb]; exact sameShape_decrementLineDelays σa
  have h2 : SameShape σb sv.1 := by
    rw [hsv]; exact sameShape_visitStep σb
  have h3 : SameShape sv.1 σc := by
    rw [hσc]; exact sameShape_foldl_route sv.2 sv.1
  have h4 : SameShape σc σd := by
    rw [hσd]; exact sameShape_foldl_sendOut (sh sv.2) σc
  have hh := sameShape_trans h0 (sameShape_trans h1
    (sameShape_trans h2 (sameShape_trans h3 h4)))
  exact ⟨hh.1, hh.2.1, hh.2.2.1, hh.2.2.2⟩

/-! ### C7 — dead-packet predicates -/

/-- The packet was destroyed with its whole displacement consumed: the
outcome of `forward`'s final `else` (destruction at the destination). -/
def DeadZero (σ : SimState) (i : PacketId) : Prop :=
  (σ.packet i).parent = Parent.none ∧ pdist (σ.packet i) = 0

/-- The packet was destroyed with displacement remaining (lost at an
unconnected edge, with the `was lost` message). -/
def Lost (σ : SimState) (i : PacketId) : Prop :=
  (σ.packet i).parent = Parent.none ∧ pdist (σ.packet i) ≠ 0

/-! ### C7 — helper equalities for in-place updates -/

theorem set_getD_self {α : Type} (l : List α) (n : Nat) (d : α)
    (h : n < l.length) : l.set n (l.getD n d) = l := by
  apply List.ext_getElem
  · simp
  · intro k h1 h2
    rw [List.getElem_set]
    split_ifs with hk
    · subst hk
      rw [List.getD_eq_getElem l d h]
    · rfl

theorem setCore_core_self (σ : SimState) (c : CoreId) (h : c < σ.cores.length) :
    σ.setCore c (σ.core c) = σ := by
  unfold SimState.setCore SimState.core
  rw [set_getD_self σ.cores c default h]

theorem modifyCore_eq_self (σ : SimState) (c : CoreId) (f : Core → Core)
    (h : c < σ.cores.length) (hf : f (σ.core c) = σ.core c) :
    σ.modifyCore c f = σ := by
  unfold SimState.modifyCore
  rw [hf]
  exact setCore_core_self σ c h

theorem core_modifyCore_self (σ : SimState) (c : CoreId) (f : Core → Core)
    (h : c < σ.cores.length) : (σ.modifyCore c f).core c = f (σ.core c) :=
  core_setCore_self σ _ _ h

theorem modifyCore_modifyCore (σ : SimState) (c : CoreId) (f g : Core → Core)
    (h : c < σ.cores.length) :
    (σ.modifyCore c f).modifyCore c g = σ.modifyCore c (fun co => g (f co)) := by
  unfold SimState.modifyCore
  rw [core_setCore_self σ c _ h]
  unfold SimState.setCore
  simp only [List.set_set]

/-- The core update applied by `clear_merges`. -/
def clearCore (co : Core) : Core :=
  { co with
    forward_north_merge := none, forward_east_merge := none,
    forward_south_merge := none, forward_west_merge := none,
    forward_up_merge := none, forward_down_merge := none }

theorem clearMerges_eq (σ : SimState) (c : CoreId) :
    clearMerges σ c = σ.modifyCore c clearCore := rfl

theorem cores_length_modifyCore (σ : SimState) (c : CoreId) (f : Core → Core) :
    (σ.modifyCore c f).cores.length = σ.cores.length :=
  cores_length_setCore σ c _

theorem clearCore_of_clear (co : Core) (hm : mergesClear co) :
    clearCore co = co := by
  obtain ⟨li, lo, sb, wb, nm, pob, fn, fe, fs, fw, fu, fd⟩ := co
  obtain ⟨h1, h2, h3, h4, h5, h6⟩ := hm
  obtain rfl : fn = none := h1
  obtain rfl : fe = none := h2
  obtain rfl : fs = none := h3
  obtain rfl : fw = none := h4
  obtain rfl : fu = none := h5
  obtain rfl : fd = none := h6
  rfl

/-- A core update that can only touch the six merge registers. -/
def MergeOnly (g : Core → Core) : Prop :=
  ∀ co, (g co).lines_in = co.lines_in ∧ (g co).lines_out = co.lines_out ∧
    (g co).send_buffer = co.send_buffer ∧ (g co).wait_buffer = co.wait_buffer ∧
    (g co).name = co.name ∧ (g co).packet_out_buffer = co.packet_out_buffer

theorem clearCore_mergeOnly {g : Core → Core} (hg : MergeOnly g) (co : Core) :
    clearCore (g co) = clearCore co := by
  obtain ⟨h1, h2, h3, h4, h5, h6⟩ := hg co
  unfold clearCore
  rw [h1, h2, h3, h4, h5, h6]

theorem getD_replicate {α : Type} (n k : Nat) (a d : α) (h : k < n) :
    (List.replicate n a).getD k d = a := by
  rw [List.getD_eq_getElem (List.replicate n a) d (by simpa using h),
    List.getElem_replicate]

theorem set_replicate_self {α : Type} (n k : Nat) (a : α) :
    (List.replicate n a).set k a = List.replicate n a := by
  apply List.ext_getElem
  · simp
  · intro m h1 h2
    rw [List.getElem_set]
    split_ifs with he
    · rw [List.getElem_replicate]
    · rfl

/-! ### C7 — single-packet evaluation of the tick pipeline -/

theorem decrement_no_line (σ : SimState) (i : PacketId)
    (hps : σ.packets = [i]) (hpar : ∀ l, (σ.packet i).parent ≠ Parent.line l) :
    decrementLineDelays σ = σ := by
  unfold decrementLineDelays
  rw [hps]
  simp only [List.foldl]

theorem decrement_line (σ : SimState) (i : PacketId) (l : LineId)
    (hps : σ.packets = [i]) (hpar : (σ.packet i).parent = Parent.line l) :
    decrementLineDelays σ =
      σ.modifyPacket i fun p => { p with routing_delay := p.routing_delay - 1 } := by
  unfold decrementLineDelays
  rw [hps]
  simp only [List.foldl]
  simp [hpar]

theorem visit_core (σ : SimState) (i : PacketId) (c : CoreId)
    (hps : σ.packets = [i]) (hpar : (σ.packet i).parent = Parent.core c) :
    visitStep σ = (σ, [c]) := by
  have hle : lineExitStep σ i = σ := by
    unfold lineExitStep
    rw [hpar]
  unfold visitStep
  rw [hps]
  simp only [List.foldl]
  simp [hle, hpar]

theorem visit_none (σ : SimState) (i : PacketId)
    (hps : σ.packets = [i]) (hpar : (σ.packet i).parent = Parent.none) :
    visitStep σ = (σ, []) := by
  have hle : lineExitStep σ i = σ := by
    unfold lineExitStep
    rw [hpar]
  unfold visitStep
  rw [hps]
  simp only [List.foldl]
  simp [hle, hpar]

/-- The body of one `simulate` tick between the console print and the
`t`-increment: delay decrement, wire exits, routing and send-out. -/
def midTick (sh : List CoreId → List CoreId) (σ : SimState) : SimState :=
  let σ1 := decrementLineDelays σ
  let sv := visitStep σ1
  let σ2 := sv.2.foldl (fun σ c => coreRoute σ c) sv.1
  (sh sv.2).foldl (fun σ c => coreSendOut σ c) σ2

theorem tick_as_midTick (sh : List CoreId → List CoreId) (σ : SimState) :
    tick sh σ =
      { midTick sh (if σ.t % 10 == 0 then σ.pushOutput (toString σ.t) else σ) with
        t := (midTick sh
          (if σ.t % 10 == 0 then σ.pushOutput (toString σ.t) else σ)).t + 1 } :=
  rfl

theorem midTick_core_shape (sh : List CoreId → List CoreId) (σ : SimState)
    (i : PacketId) (c : CoreId) (hsh1 : sh [c] = [c])
    (hps : σ.packets = [i]) (hpar : (σ.packet i).parent = Parent.core c) :
    midTick sh σ = coreSendOut (coreRoute σ c) c := by
  simp only [midTick]
  rw [decrement_no_line σ i hps (by intro l h; rw [hpar] at h; cases h),
    visit_core σ i c hps hpar]
  dsimp only
  rw [hsh1]
  simp only [List.foldl]

theorem midTick_none_shape (sh : List CoreId → List CoreId) (σ : SimState)
    (i : PacketId) (hsh0 : sh [] = [])
    (hps : σ.packets = [i]) (hpar : (σ.packet i).parent = Parent.none) :
    midTick sh σ = σ := by
  simp only [midTick]
  rw [decrement_no_line σ i hps (by intro l h; rw [hpar] at h; cases h),
    visit_none σ i hps hpar]
  dsimp only
  rw [hsh0]
  rfl

theorem sendOutLine_noop (σ : SimState) (c : CoreId) (x : Nat)
    (hc : c < σ.cores.length)
    (hx : (σ.core c).packet_out_buffer.getD x emptyBuffer = emptyBuffer)
    (hxl : x < (σ.core c).packet_out_buffer.length) :
    sendOutLine σ c x = σ := by
  unfold sendOutLine
  cases hl : (σ.core c).lines_out.getD x none with
  | none => rfl
  | some l =>
      simp only [hl]
      rw [hx, show emptyBuffer.flush = (([] : List PacketId), emptyBuffer) from rfl]
      dsimp only
      simp only [sendOutPackets]
      apply modifyCore_eq_self _ _ _ hc
      rw [← hx, set_getD_self _ _ _ hxl]

theorem coreSendOut_noop (σ : SimState) (c : CoreId)
    (hc : c < σ.cores.length)
    (hpob : (σ.core c).packet_out_buffer = List.replicate 6 emptyBuffer) :
    coreSendOut σ c = σ := by
  have hx : ∀ x, x < 6 → sendOutLine σ c x = σ := by
    intro x hx6
    apply sendOutLine_noop σ c x hc
    · rw [hpob]
      exact getD_replicate 6 x emptyBuffer emptyBuffer hx6
    · rw [hpob]
      simpa using hx6
  show (List.range 6).foldl (fun σ x => sendOutLine σ c x) σ = σ
  rw [show List.range 6 = [0, 1, 2, 3, 4, 5] from rfl]
  simp only [List.foldl]
  rw [hx 0 (by omega), hx 1 (by omega), hx 2 (by omega), hx 3 (by omega),
    hx 4 (by omega), hx 5 (by omega)]

/-! ### C7 — `advance` under the single-packet invariant -/

theorem advance_exit (σ : SimState) (c : CoreId) (i : PacketId)
    (hex : strContains (σ.packet i).directionality "exit" = true) :
    coreAdvance σ c i = (σ, true) := by
  simp only [coreAdvance]
  rw [if_pos hex]

theorem advance_winner_clean (σ : SimState) (c : CoreId) (i : PacketId)
    (hm : mergesClear (σ.core c))
    (htag : (σ.packet i).directionality ∈ TagSet)
    (hnex : isExitTag (σ.packet i).directionality = false) :
    ∃ tg g, coreAdvance σ c i =
        ((σ.setPacket i { σ.packet i with
          routing_delay := 6, directionality := tg }).modifyCore c g, false) ∧
      MergeOnly g ∧ tg ∈ TagSet := by
  obtain ⟨hm1, hm2, hm3, hm4, hm5, hm6⟩ := hm
  simp only [TagSet, List.mem_cons, List.not_mem_nil, or_false] at htag
  rcases htag with h|h|h|h|h|h|h|h|h|h|h|h|h|h|h|h|h
  · refine ⟨if (σ.packet i).dx ≠ 0 then "east-exit"
        else if (σ.packet i).dy > 0 then "north" else "south",
      fun co => { co with forward_east_merge := some i }, ?_,
      fun co => ⟨rfl, rfl, rfl, rfl, rfl, rfl⟩, by split_ifs <;> decide⟩
    simp only [coreAdvance, h]
    rw [if_neg (by decide), if_pos (by decide), hm2, if_pos (by decide)]
  · refine ⟨if (σ.packet i).dx ≠ 0 then "west-exit"
        else if (σ.packet i).dy > 0 then "north" else "south",
      fun co => { co with forward_west_merge := some i }, ?_,
      fun co => ⟨rfl, rfl, rfl, rfl, rfl, rfl⟩, by split_ifs <;> decide⟩
    simp only [coreAdvance, h]
    rw [if_neg (by decide), if_neg (by decide), if_pos (by decide), hm4,
      if_pos (by decide)]
  · refine ⟨if (σ.packet i).dy ≠ 0 then "north-exit"
        else if (σ.packet i).dz > 0 then "up"
        else if (σ.packet i).dz < 0 then "down" else "self-exit",
      fun co => { co with forward_north_merge := some i }, ?_,
      fun co => ⟨rfl, rfl, rfl, rfl, rfl, rfl⟩, by split_ifs <;> decide⟩
    simp only [coreAdvance, h]
    rw [if_neg (by decide), if_neg (by decide), if_neg (by decide),
      if_neg (by decide), if_pos (by decide), hm1, if_pos (by decide)]
  · refine ⟨if (σ.packet i).dy ≠ 0 then "south-exit"
        else if (σ.packet i).dz > 0 then "up"
        else if (σ.packet i).dz < 0 then "down" else "self-exit",
      fun co => { co with forward_south_merge := some i }, ?_,
      fun co => ⟨rfl, rfl, rfl, rfl, rfl, rfl⟩, by split_ifs <;> decide⟩
    simp only [coreAdvance, h]
    rw [if_neg (by decide), if_neg (by decide), if_neg (by decide),
      if_pos (by decide), hm3, if_pos (by decide)]
  · refine ⟨"up-exit", fun co => { co with forward_up_merge := some i }, ?_,
      fun co => ⟨rfl, rfl, rfl, rfl, rfl, rfl⟩, by decide⟩
    simp only [coreAdvance, h]
    rw [if_neg (by decide), if_neg (by decide), if_neg (by decide),
      if_neg (by decide), if_neg (by decide), if_pos (by decide), hm5,
      if_pos (by decide)]
  · refine ⟨"down-exit", fun co => { co with forward_down_merge := some i }, ?_,
      fun co => ⟨rfl, rfl, rfl, rfl, rfl, rfl⟩, by decide⟩
    simp only [coreAdvance, h]
    rw [if_neg (by decide), if_neg (by decide), if_neg (by decide),
      if_neg (by decide), if_neg (by decide), if_neg (by decide),
      if_pos (by decide), hm6, if_pos (by decide)]
  · refine ⟨if (σ.packet i).dy ≠ 0 then "north-exit"
        else if (σ.packet i).dz > 0 then "up"
        else if (σ.packet i).dz < 0 then "down" else "self-exit",
      fun co => { co with forward_north_merge := some i }, ?_,
      fun co => ⟨rfl, rfl, rfl, rfl, rfl, rfl⟩, by split_ifs <;> decide⟩
    simp only [coreAdvance, h]
    rw [if_neg (by decide), if_neg (by decide), if_neg (by decide),
      if_neg (by decide), if_pos (by decide), hm1, if_pos (by decide)]
  · refine ⟨if (σ.packet i).dy ≠ 0 then "south-exit"
        else if (σ.packet i).dz > 0 then "up"
        else if (σ.packet i).dz < 0 then "down" else "self-exit",
      fun co => { co with forward_south_merge := some i }, ?_,
      fun co => ⟨rfl, rfl, rfl, rfl, rfl, rfl⟩, by split_ifs <;> decide⟩
    simp only [coreAdvance, h]
    rw [if_neg (by decide), if_neg (by decide), if_neg (by decide),
      if_pos (by decide), hm3, if_pos (by decide)]
  · refine ⟨"up-exit", fun co => { co with forward_up_merge := some i }, ?_,
      fun co => ⟨rfl, rfl, rfl, rfl, rfl, rfl⟩, by decide⟩
    simp only [coreAdvance, h]
    rw [if_neg (by decide), if_neg (by decide), if_neg (by decide),
      if_neg (by decide), if_neg (by decide), if_pos (by decide), hm5,
      if_pos (by decide)]
  · refine ⟨"down-exit", fun co => { co with forward_down_merge := some i }, ?_,
      fun co => ⟨rfl, rfl, rfl, rfl, rfl, rfl⟩, by decide⟩
    simp only [coreAdvance, h]
    rw [if_neg (by decide), if_neg (by decide), if_neg (by decide),
      if_neg (by decide), if_neg (by decide), if_neg (by decide),
      if_pos (by decide), hm6, if_pos (by decide)]
  · rw [h] at hnex
    exact absurd hnex (by decide)
  · rw [h] at hnex
    exact absurd hnex (by decide)
  · rw [h] at hnex
    exact absurd hnex (by decide)
  · rw [h] at hnex
    exact absurd hnex (by decide)
  · rw [h] at hnex
    exact absurd hnex (by decide)
  · rw [h] at hnex
    exact absurd hnex (by decide)
  · rw [h] at hnex
    exact absurd hnex (by decide)

/-! ### C7 — `route` under the single-packet invariant -/

theorem coreRoute_as_wait (σ : SimState) (c : CoreId) (i : PacketId)
    (hc : c < σ.cores.length)
    (hsend : (σ.core c).send_buffer = [])
    (hwait : (σ.core c).wait_buffer = [i]) :
    coreRoute σ c =
      clearMerges ((routeWaitLoop σ c [i] []).1.modifyCore c
        (fun co => { co with wait_buffer := (routeWaitLoop σ c [i] []).2 })) c := by
  simp only [coreRoute]
  rw [hsend]
  simp only [routeSendLoop]
  have hmc : σ.modifyCore c
      (fun co => { co with send_buffer := ([] : List PacketId) }) = σ := by
    apply modifyCore_eq_self _ _ _ hc
    rw [← hsend]
  rw [hmc, hwait]

theorem coreRoute_waiting (σ : SimState) (c : CoreId) (i : PacketId)
    (hc : c < σ.cores.length)
    (hhome : coreHome (σ.core c) i)
    (hdel : (σ.packet i).routing_delay > 0) :
    coreRoute σ c =
      σ.modifyPacket i fun p => { p with routing_delay := p.routing_delay - 1 } := by
  obtain ⟨hsend, hwait, hpob, hm⟩ := hhome
  rw [coreRoute_as_wait σ c i hc hsend hwait]
  have hrw : routeWaitLoop σ c [i] [] =
      (σ.modifyPacket i fun p => { p with routing_delay := p.routing_delay - 1 },
        [i]) := by
    simp only [routeWaitLoop, List.nil_append]
    rw [if_pos hdel]
  rw [hrw]
  dsimp only
  have hmc : (σ.modifyPacket i fun p =>
        { p with routing_delay := p.routing_delay - 1 }).modifyCore c
      (fun co => { co with wait_buffer := [i] }) =
      σ.modifyPacket i fun p => { p with routing_delay := p.routing_delay - 1 } := by
    refine modifyCore_eq_self _ _ _ ?_ ?_
    · exact hc
    · show { σ.core c with wait_buffer := [i] } = σ.core c
      rw [← hwait]
  rw [hmc, clearMerges_eq]
  refine modifyCore_eq_self _ _ _ ?_ ?_
  · exact hc
  · show clearCore (σ.core c) = σ.core c
    exact clearCore_of_clear _ hm

theorem coreRoute_winner (σ : SimState) (c : CoreId) (i : PacketId)
    (hc : c < σ.cores.length)
    (hhome : coreHome (σ.core c) i)
    (hdel : ¬ (σ.packet i).routing_delay > 0)
    (htag : (σ.packet i).directionality ∈ TagSet)
    (hnex : isExitTag (σ.packet i).directionality = false) :
    ∃ tg, tg ∈ TagSet ∧
      coreRoute σ c =
        σ.setPacket i { σ.packet i with
          routing_delay := 6, directionality := tg } := by
  obtain ⟨hsend, hwait, hpob, hm⟩ := hhome
  obtain ⟨tg, g, hadv, hgo, htgm⟩ :=
    advance_winner_clean σ c i ⟨hm.1, hm.2.1, hm.2.2.1, hm.2.2.2.1,
      hm.2.2.2.2.1, hm.2.2.2.2.2⟩ htag hnex
  refine ⟨tg, htgm, ?_⟩
  rw [coreRoute_as_wait σ c i hc hsend hwait]
  have hrw : routeWaitLoop σ c [i] [] =
      ((σ.setPacket i { σ.packet i with
        routing_delay := 6, directionality := tg }).modifyCore c g, [i]) := by
    simp only [routeWaitLoop, List.nil_append]
    rw [if_neg hdel, hadv]
  rw [hrw]
  dsimp only
  rw [clearMerges_eq,
    modifyCore_modifyCore _ c _ _
      (by simp only [cores_length_modifyCore, cores_length_setPacket]; exact hc),
    modifyCore_modifyCore _ c _ _
      (by simp only [cores_length_modifyCore, cores_length_setPacket]; exact hc)]
  refine modifyCore_eq_self _ _ _ (by exact hc) ?_
  show clearCore { g (σ.core c) with wait_buffer := [i] } = σ.core c
  obtain ⟨hg1, hg2, hg3, hg4, hg5, hg6⟩ := hgo (σ.core c)
  unfold clearCore
  dsimp only
  rw [hg1, hg2, hg3, hg5, hg6, ← hwait]
  exact clearCore_of_clear _ hm

/-! ### C7 — `route` for an exit-tagged packet -/

theorem getD_set_self {α : Type} (l : List α) (n : Nat) (a d : α)
    (h : n < l.length) : (l.set n a).getD n d = a := by
  rw [List.getD_eq_getElem _ _ (by simpa using h), List.getElem_set]
  simp

theorem getD_set_ne {α : Type} (l : List α) (n m : Nat) (a d : α)
    (h : n ≠ m) : (l.set n a).getD m d = l.getD m d := by
  simp [List.getD_eq_getElem?_getD, List.getElem?_set_ne h]

theorem coreRoute_exit_gen (σ : SimState) (c : CoreId) (i : PacketId)
    (σD : SimState)
    (hc : c < σ.cores.length)
    (hhome : coreHome (σ.core c) i)
    (hdel : ¬ (σ.packet i).routing_delay > 0)
    (hex : strContains (σ.packet i).directionality "exit" = true)
    (hcf : coreForward σ c i = (σD, none))
    (hDc : σD.core c = σ.core c)
    (hDlen : σD.cores.length = σ.cores.length) :
    coreRoute σ c = σD.modifyCore c (fun co => { co with wait_buffer := [] }) := by
  obtain ⟨hsend, hwait, hpob, hm⟩ := hhome
  have hrw : routeWaitLoop σ c [i] [] = (σD, []) := by
    simp only [routeWaitLoop]
    rw [if_neg hdel, advance_exit σ c i hex]
    dsimp only
    rw [hcf]
  rw [coreRoute_as_wait σ c i hc hsend hwait, hrw]
  dsimp only
  rw [clearMerges_eq,
    modifyCore_modifyCore σD c _ _ (by rw [hDlen]; exact hc)]
  refine congrArg (σD.setCore c) ?_
  dsimp only
  rw [hDc]
  exact clearCore_of_clear _ hm

theorem coreRoute_exit_stage (σ : SimState) (c : CoreId) (i : PacketId) (d : Nat)
    (l : LineId)
    (hc : c < σ.cores.length)
    (hhome : coreHome (σ.core c) i)
    (hdel : ¬ (σ.packet i).routing_delay > 0)
    (hex : strContains (σ.packet i).directionality "exit" = true)
    (hfw : coreForward σ c i = forwardDir σ c i d)
    (hd6 : d < 6)
    (hlo : (σ.core c).lines_out.getD d none = some l)
    (hlc : (σ.line l).is_clear = true) :
    coreRoute σ c = σ.modifyCore c (fun co =>
      { co with
        wait_buffer := []
        packet_out_buffer :=
          (List.replicate 6 emptyBuffer).set d (emptyBuffer.add i) }) := by
  obtain ⟨hsend, hwait, hpob, hm⟩ := hhome
  have hguard : ((σ.line l).is_clear &&
      ((σ.core c).packet_out_buffer.getD d emptyBuffer).is_clear) = true := by
    rw [hlc, hpob, getD_replicate 6 d emptyBuffer emptyBuffer hd6]
    rfl
  have hfd : forwardDir σ c i d =
      (σ.modifyCore c (fun co => { co with packet_out_buffer :=
        (co.packet_out_buffer.set d
          ((co.packet_out_buffer.getD d emptyBuffer).add i)) }), none) := by
    unfold forwardDir
    simp only [hlo]
    rw [if_pos hguard]
  have hrw : routeWaitLoop σ c [i] [] =
      (σ.modifyCore c (fun co => { co with packet_out_buffer :=
        (co.packet_out_buffer.set d
          ((co.packet_out_buffer.getD d emptyBuffer).add i)) }), []) := by
    simp only [routeWaitLoop]
    rw [if_neg hdel, advance_exit σ c i hex]
    dsimp only
    rw [hfw, hfd]
  rw [coreRoute_as_wait σ c i hc hsend hwait, hrw]
  dsimp only
  rw [clearMerges_eq,
    modifyCore_modifyCore _ c _ _
      (by try simp only [cores_length_modifyCore]
          exact hc),
    modifyCore_modifyCore _ c _ _
      (by try simp only [cores_length_modifyCore]
          exact hc)]
  refine congrArg (σ.setCore c) ?_
  dsimp only
  rw [hpob, getD_replicate 6 d emptyBuffer emptyBuffer hd6]
  exact clearCore_of_clear _ hm

theorem coreSendOut_stage (σ : SimState) (c : CoreId) (i : PacketId) (d : Nat)
    (l : LineId) (hc : c < σ.cores.length) (hd6 : d < 6)
    (hpob : (σ.core c).packet_out_buffer =
      (List.replicate 6 emptyBuffer).set d (emptyBuffer.add i))
    (hlo : (σ.core c).lines_out.getD d none = some l)
    (hlc : (σ.line l).is_clear = true) :
    coreSendOut σ c =
      (σ.modifyCore c fun co =>
        { co with packet_out_buffer := List.replicate 6 emptyBuffer }).modifyPacket
        i (fun p => { p with parent := Parent.line l, routing_delay := 1 }) := by
  have hcore12 : (σ.modifyCore c fun co =>
      { co with packet_out_buffer := (co.packet_out_buffer.set d emptyBuffer) }) =
      σ.modifyCore c fun co =>
        { co with packet_out_buffer := List.replicate 6 emptyBuffer } := by
    refine congrArg (σ.setCore c) ?_
    dsimp only
    rw [hpob, List.set_set, set_replicate_self]
  have hinj : lineInject (σ.modifyCore c fun co =>
      { co with packet_out_buffer := (co.packet_out_buffer.set d emptyBuffer) }) l i =
      ((σ.modifyCore c fun co =>
        { co with packet_out_buffer :=
          (co.packet_out_buffer.set d emptyBuffer) }).modifyPacket
        i (fun p => { p with parent := Parent.line l, routing_delay := 1 }), none) := by
    unfold lineInject
    rw [if_pos (show (((σ.modifyCore c fun co =>
      { co with packet_out_buffer :=
        (co.packet_out_buffer.set d emptyBuffer) }).line l).channels.any
      (fun ch => ch == none)) = true from hlc)]
  have hstep : sendOutLine σ c d =
      (σ.modifyCore c fun co =>
        { co with packet_out_buffer := List.replicate 6 emptyBuffer }).modifyPacket
        i (fun p => { p with parent := Parent.line l, routing_delay := 1 }) := by
    unfold sendOutLine
    simp only [hlo]
    rw [hpob, getD_set_self (List.replicate 6 emptyBuffer) d (emptyBuffer.add i)
      emptyBuffer (by simpa using hd6)]
    rw [show (emptyBuffer.add i).flush = ([i], emptyBuffer) from rfl]
    dsimp only
    simp only [sendOutPackets]
    rw [hinj]
    dsimp only
    rw [hcore12]
  have hpre : ∀ x, x < 6 → x ≠ d → sendOutLine σ c x = σ := by
    intro x hx6 hxd
    refine sendOutLine_noop σ c x hc ?_ ?_
    · rw [hpob, getD_set_ne _ _ _ _ _ (fun h => hxd h.symm),
        getD_replicate 6 x emptyBuffer emptyBuffer hx6]
    · rw [hpob]
      simpa using hx6
  have hpost : ∀ x, x < 6 → sendOutLine
      ((σ.modifyCore c fun co =>
        { co with packet_out_buffer := List.replicate 6 emptyBuffer }).modifyPacket
        i (fun p => { p with parent := Parent.line l, routing_delay := 1 })) c x =
      (σ.modifyCore c fun co =>
        { co with packet_out_buffer := List.replicate 6 emptyBuffer }).modifyPacket
        i (fun p => { p with parent := Parent.line l, routing_delay := 1 }) := by
    intro x hx6
    have hcc : (((σ.modifyCore c fun co =>
        { co with packet_out_buffer := List.replicate 6 emptyBuffer }).modifyPacket
        i (fun p => { p with parent := Parent.line l, routing_delay := 1 })).core c) =
        { σ.core c with packet_out_buffer := List.replicate 6 emptyBuffer } := by
      show ((σ.modifyCore c fun co =>
        { co with packet_out_buffer := List.replicate 6 emptyBuffer }).core c) = _
      exact core_modifyCore_self σ c _ hc
    refine sendOutLine_noop _ c x ?_ ?_ ?_
    · simp only [SimState.modifyPacket, cores_length_setPacket,
        cores_length_modifyCore]
      exact hc
    · rw [hcc]
      dsimp only
      exact getD_replicate 6 x emptyBuffer emptyBuffer hx6
    · rw [hcc]
      dsimp only
      simpa using hx6
  show (List.range 6).foldl (fun σ x => sendOutLine σ c x) σ = _
  rw [show List.range 6 = [0, 1, 2, 3, 4, 5] from rfl]
  simp only [List.foldl]
  interval_cases d
  · rw [hstep, hpost 1 (by omega), hpost 2 (by omega), hpost 3 (by omega),
      hpost 4 (by omega), hpost 5 (by omega)]
  · rw [hpre 0 (by omega) (by omega), hstep, hpost 2 (by omega),
      hpost 3 (by omega), hpost 4 (by omega), hpost 5 (by omega)]
  · rw [hpre 0 (by omega) (by omega), hpre 1 (by omega) (by omega), hstep,
      hpost 3 (by omega), hpost 4 (by omega), hpost 5 (by omega)]
  · rw [hpre 0 (by omega) (by omega), hpre 1 (by omega) (by omega),
      hpre 2 (by omega) (by omega), hstep, hpost 4 (by omega),
      hpost 5 (by omega)]
  · rw [hpre 0 (by omega) (by omega), hpre 1 (by omega) (by omega),
      hpre 2 (by omega) (by omega), hpre 3 (by omega) (by omega), hstep,
      hpost 5 (by omega)]
  · rw [hpre 0 (by omega) (by omega), hpre 1 (by omega) (by omega),
      hpre 2 (by omega) (by omega), hpre 3 (by omega) (by omega),
      hpre 4 (by omega) (by omega), hstep]

/-! ### C7 — small facts feeding the per-tick step lemma -/

theorem rho_core (σ : SimState) (i : PacketId) (c : CoreId)
    (hpar : (σ.packet i).parent = Parent.core c) :
    rho σ i = (σ.packet i).routing_delay + 8 * pdist (σ.packet i) +
      (if isExitTag (σ.packet i).directionality then 1 else 8) := by
  unfold rho
  rw [hpar]

theorem rho_line (σ : SimState) (i : PacketId) (l : LineId)
    (hpar : (σ.packet i).parent = Parent.line l) :
    rho σ i = 8 * pdist (σ.packet i) := by
  unfold rho
  rw [hpar]

theorem rho_none (σ : SimState) (i : PacketId)
    (hpar : (σ.packet i).parent = Parent.none) :
    rho σ i = 0 := by
  unfold rho
  rw [hpar]

theorem packet_modifyPacket_self (σ : SimState) (i : PacketId)
    (f : Packet → Packet) (hi : i < σ.packetData.length) :
    (σ.modifyPacket i f).packet i = f (σ.packet i) :=
  packet_setPacket_self σ i _ hi

theorem pdist_exitUpdate (p : Packet) (h : 1 ≤ pdist p) :
    pdist (exitUpdate p) = pdist p - 1 := by
  unfold exitUpdate pdist at *
  by_cases h1 : p.dx > 0
  · rw [if_pos h1]
    dsimp only
    omega
  rw [if_neg h1]
  by_cases h2 : p.dx < 0
  · rw [if_pos h2]
    dsimp only
    omega
  rw [if_neg h2]
  by_cases h3 : p.dy > 0
  · rw [if_pos h3]
    dsimp only
    omega
  rw [if_neg h3]
  by_cases h4 : p.dy < 0
  · rw [if_pos h4]
    dsimp only
    omega
  rw [if_neg h4]
  by_cases h5 : p.dz > 0
  · rw [if_pos h5]
    dsimp only
    omega
  rw [if_neg h5]
  by_cases h6 : p.dz < 0
  · rw [if_pos h6]
    dsimp only
    omega
  rw [if_neg h6]
  omega

theorem exitUpdate_tag (p : Packet) (h : 1 ≤ pdist p) :
    isExitTag (exitUpdate p).directionality = false ∧
      (exitUpdate p).directionality ∈ TagSet := by
  unfold exitUpdate
  split_ifs with h1 h2 h3 h4 h5 h6
  · exact ⟨(by decide : isExitTag "eastbound" = false),
      (by decide : "eastbound" ∈ TagSet)⟩
  · exact ⟨(by decide : isExitTag "westbound" = false),
      (by decide : "westbound" ∈ TagSet)⟩
  · exact ⟨(by decide : isExitTag "northbound" = false),
      (by decide : "northbound" ∈ TagSet)⟩
  · exact ⟨(by decide : isExitTag "southbound" = false),
      (by decide : "southbound" ∈ TagSet)⟩
  · exact ⟨(by decide : isExitTag "upbound" = false),
      (by decide : "upbound" ∈ TagSet)⟩
  · exact ⟨(by decide : isExitTag "downbound" = false),
      (by decide : "downbound" ∈ TagSet)⟩
  · exfalso
    unfold pdist at h
    omega

theorem exitUpdate_parent (p : Packet) : (exitUpdate p).parent = p.parent := by
  unfold exitUpdate
  split_ifs <;> rfl

theorem coreForward_cases (σ : SimState) (c : CoreId) (i : PacketId) :
    (coreForward σ c i =
        (σ.modifyPacket i fun p => { p with parent := Parent.none }, none) ∧
      pdist (σ.packet i) = 0) ∨
    ∃ d, d < 6 ∧ coreForward σ c i = forwardDir σ c i d ∧
      1 ≤ pdist (σ.packet i) := by
  by_cases h1 : (σ.packet i).dx > 0
  · refine Or.inr ⟨1, by omega, ?_, by unfold pdist; omega⟩
    simp only [coreForward]
    rw [if_pos h1]
  by_cases h2 : (σ.packet i).dx < 0
  · refine Or.inr ⟨2, by omega, ?_, by unfold pdist; omega⟩
    simp only [coreForward]
    rw [if_neg h1, if_pos h2]
  by_cases h3 : (σ.packet i).dy > 0
  · refine Or.inr ⟨0, by omega, ?_, by unfold pdist; omega⟩
    simp only [coreForward]
    rw [if_neg h1, if_neg h2, if_pos h3]
  by_cases h4 : (σ.packet i).dy < 0
  · refine Or.inr ⟨3, by omega, ?_, by unfold pdist; omega⟩
    simp only [coreForward]
    rw [if_neg h1, if_neg h2, if_neg h3, if_pos h4]
  by_cases h5 : (σ.packet i).dz > 0
  · refine Or.inr ⟨4, by omega, ?_, by unfold pdist; omega⟩
    simp only [coreForward]
    rw [if_neg h1, if_neg h2, if_neg h3, if_neg h4, if_pos h5]
  by_cases h6 : (σ.packet i).dz < 0
  · refine Or.inr ⟨5, by omega, ?_, by unfold pdist; omega⟩
    simp only [coreForward]
    rw [if_neg h1, if_neg h2, if_neg h3, if_neg h4, if_neg h5, if_pos h6]
  refine Or.inl ⟨?_, by unfold pdist; omega⟩
  simp only [coreForward]
  rw [if_neg h1, if_neg h2, if_neg h3, if_neg h4, if_neg h5, if_neg h6]

theorem line_clear_of_linesOk (σ : SimState) (hl : linesOk σ) (l : LineId) :
    (σ.line l).is_clear = true := by
  have hnone : none ∈ (σ.line l).channels := by
    unfold SimState.line
    refine getD_prop σ.lines l default (fun a ha => (hl a ha).1) ?_
    show none ∈ (default : Line).channels
    decide
  unfold Line.is_clear
  rw [List.any_eq_true]
  exact ⟨none, hnone, rfl⟩

theorem line_out_bound (σ : SimState) (hl : linesOk σ) (l : LineId) (c : CoreId)
    (hco : (σ.line l).component_out = some c) : c < σ.cores.length := by
  unfold SimState.line at hco
  revert hco
  refine getD_prop (Q := fun li =>
    li.component_out = some c → c < σ.cores.length) σ.lines l default
    (fun a ha => (hl a ha).2 c) ?_
  intro h
  exact Option.noConfusion h

theorem inv_congr {σ σ2 : SimState} (i : PacketId)
    (h1 : σ2.packets = σ.packets) (h2 : σ2.packetData = σ.packetData)
    (h3 : σ2.cores = σ.cores) (h4 : σ2.lines = σ.lines)
    (h : Inv σ i) : Inv σ2 i := by
  obtain ⟨ps, pd, cs, ls, de, ou, t⟩ := σ
  obtain ⟨ps2, pd2, cs2, ls2, de2, ou2, t2⟩ := σ2
  obtain rfl : ps2 = ps := h1
  obtain rfl : pd2 = pd := h2
  obtain rfl : cs2 = cs := h3
  obtain rfl : ls2 = ls := h4
  exact h

theorem rho_congr {σ σ2 : SimState} (i : PacketId)
    (h2 : σ2.packetData = σ.packetData) : rho σ2 i = rho σ i := by
  obtain ⟨ps, pd, cs, ls, de, ou, t⟩ := σ
  obtain ⟨ps2, pd2, cs2, ls2, de2, ou2, t2⟩ := σ2
  obtain rfl : pd2 = pd := h2
  rfl

theorem packet_congr {σ σ2 : SimState} (i : PacketId)
    (h2 : σ2.packetData = σ.packetData) : σ2.packet i = σ.packet i := by
  unfold SimState.packet
  rw [h2]

theorem linesOk_congr {σ σ2 : SimState} (h4 : σ2.lines = σ.lines)
    (hlen : σ2.cores.length = σ.cores.length) (h : linesOk σ) : linesOk σ2 := by
  unfold linesOk at *
  rw [h4, hlen]
  exact h

theorem lineExitStep_stuck (σ : SimState) (i : PacketId) (l : LineId)
    (hpar : (σ.packet i).parent = Parent.line l)
    (hdel : (σ.packet i).routing_delay = 0)
    (hco : (σ.line l).component_out = none) :
    lineExitStep σ i = σ := by
  simp [lineExitStep, hpar, hdel, lineDissassociate, hco]

theorem lineExitStep_inject (σ : SimState) (i : PacketId) (l : LineId)
    (c : CoreId)
    (hpar : (σ.packet i).parent = Parent.line l)
    (hdel : (σ.packet i).routing_delay = 0)
    (hco : (σ.line l).component_out = some c)
    (hpd : 1 ≤ pdist (σ.packet i)) :
    lineExitStep σ i =
      coreInject (σ.setPacket i (exitUpdate (σ.packet i))) c i := by
  simp only [lineExitStep, hpar, hdel, lineDissassociate, hco,
    beq_self_eq_true, if_true, Nat.zero_eq]
  simp only [ne_eq, Option.some_ne_none, not_false_eq_true, and_true]
  unfold exitUpdate
  split_ifs with h1 h2 h3 h4 h5 h6 <;>
    first
      | rw [hdel, hpar]
      | (exfalso
         unfold pdist at hpd
         omega)

theorem visit_line_stuck (σ : SimState) (i : PacketId) (l : LineId)
    (hps : σ.packets = [i]) (hpar : (σ.packet i).parent = Parent.line l)
    (hle : lineExitStep σ i = σ) :
    visitStep σ = (σ, []) := by
  unfold visitStep
  rw [hps]
  simp only [List.foldl]
  simp [hle, hpar]

theorem visit_line_inject (σ : SimState) (i : PacketId) (σ2 : SimState)
    (c : CoreId) (hps : σ.packets = [i])
    (hle : lineExitStep σ i = σ2)
    (hp2 : (σ2.packet i).parent = Parent.core c) :
    visitStep σ = (σ2, [c]) := by
  unfold visitStep
  rw [hps]
  simp only [List.foldl]
  simp [hle, hp2]

theorem core_modifyCore_ne (σ : SimState) (c c2 : CoreId) (f : Core → Core)
    (h : c ≠ c2) : (σ.modifyCore c f).core c2 = σ.core c2 :=
  core_setCore_ne σ c c2 _ h

theorem cores_length_modifyPacket (σ : SimState) (i : PacketId)
    (f : Packet → Packet) :
    (σ.modifyPacket i f).cores.length = σ.cores.length := rfl

theorem packetData_length_modifyPacket (σ : SimState) (i : PacketId)
    (f : Packet → Packet) :
    (σ.modifyPacket i f).packetData.length = σ.packetData.length :=
  packetData_length_setPacket σ i _

theorem packetData_length_modifyCore (σ : SimState) (c : CoreId)
    (f : Core → Core) :
    (σ.modifyCore c f).packetData.length = σ.packetData.length := rfl

theorem lines_modifyPacket (σ : SimState) (i : PacketId) (f : Packet → Packet) :
    (σ.modifyPacket i f).lines = σ.lines := rfl

theorem lines_modifyCore (σ : SimState) (c : CoreId) (f : Core → Core) :
    (σ.modifyCore c f).lines = σ.lines := rfl

theorem lines_pushOutput (σ : SimState) (s : String) :
    (σ.pushOutput s).lines = σ.lines := rfl

theorem cores_length_pushOutput (σ : SimState) (s : String) :
    (σ.pushOutput s).cores.length = σ.cores.length := rfl

theorem packetData_length_pushOutput (σ : SimState) (s : String) :
    (σ.pushOutput s).packetData.length = σ.packetData.length := rfl

theorem bool_eq_false_of_not {b : Bool} (h : ¬ b = true) : b = false := by
  cases b
  · rfl
  · exact absurd rfl h

set_option maxHeartbeats 1600000 in
theorem step_core (sh : List CoreId → List CoreId)
    (hsh1 : ∀ c2 : CoreId, sh [c2] = [c2])
    (σ : SimState) (i : PacketId) (c : CoreId)
    (hInv : Inv σ i) (hpar : (σ.packet i).parent = Parent.core c) :
    Inv (midTick sh σ) i ∧
      (rho σ i ≤ rho (midTick sh σ) i + 1 ∨ Lost (midTick sh σ) i) := by
  obtain ⟨hps, hi, hlines, htag, hph⟩ := hInv
  have hph2 : c < σ.cores.length ∧ coreHome (σ.core c) i ∧ coresIdleExcept σ c := by
    unfold PhaseOk at hph
    rw [hpar] at hph
    exact hph
  obtain ⟨hc, hhome, hidle⟩ := hph2
  rw [midTick_core_shape sh σ i c (hsh1 c) hps hpar]
  by_cases hdel : (σ.packet i).routing_delay > 0
  · rw [coreRoute_waiting σ c i hc hhome hdel,
      coreSendOut_noop _ c (by exact hc) (by exact hhome.2.2.1)]
    have hpA : (σ.modifyPacket i fun p =>
        { p with routing_delay := p.routing_delay - 1 }).packet i =
        { σ.packet i with routing_delay := (σ.packet i).routing_delay - 1 } :=
      packet_modifyPacket_self σ i _ hi
    have hparA : ((σ.modifyPacket i fun p =>
        { p with routing_delay := p.routing_delay - 1 }).packet i).parent =
        Parent.core c := by
      rw [hpA]
      exact hpar
    constructor
    · refine ⟨hps, ?_, linesOk_congr rfl rfl hlines, ?_, ?_⟩
      · rw [packetData_length_modifyPacket]
        exact hi
      · rw [hpA]
        exact htag
      · unfold PhaseOk
        rw [hparA]
        exact ⟨hc, hhome, hidle⟩
    · left
      rw [rho_core σ i c hpar, rho_core _ i c hparA, hpA]
      dsimp only [pdist]
      omega
  · by_cases hex : isExitTag (σ.packet i).directionality = true
    · have hexS : strContains (σ.packet i).directionality "exit" = true := hex
      rcases coreForward_cases σ c i with ⟨hcf, hpd0⟩ | ⟨d, hd6, hfw, hpd1⟩
      · rw [coreRoute_exit_gen σ c i
          (σ.modifyPacket i fun p => { p with parent := Parent.none })
          hc hhome hdel hexS hcf rfl rfl]
        have hnoop := coreSendOut_noop
          ((σ.modifyPacket i fun p => { p with parent := Parent.none }).modifyCore
            c fun co => { co with wait_buffer := [] }) c
          (by rw [cores_length_modifyCore]
              exact hc)
          (by rw [core_modifyCore_self _ c _ (by exact hc)]
              exact hhome.2.2.1)
        rw [hnoop]
        set σC := (σ.modifyPacket i fun p =>
          { p with parent := Parent.none }).modifyCore c
            (fun co => { co with wait_buffer := [] }) with hσC
        have hpC : σC.packet i = { σ.packet i with parent := Parent.none } := by
          rw [hσC]
          exact packet_modifyPacket_self σ i
            (fun p => { p with parent := Parent.none }) hi
        have hparC : (σC.packet i).parent = Parent.none := by
          rw [hpC]
        have hlenC : σC.cores.length = σ.cores.length := by
          rw [hσC, cores_length_modifyCore, cores_length_modifyPacket]
        have hcoreCc : σC.core c = { σ.core c with wait_buffer := [] } := by
          rw [hσC]
          exact core_modifyCore_self _ c _ (by exact hc)
        have hothers : ∀ c2, c2 ≠ c → σC.core c2 = σ.core c2 := by
          intro c2 hne
          rw [hσC]
          exact core_modifyCore_ne _ c c2 _ (fun h => hne h.symm)
        constructor
        · refine ⟨hps, ?_, linesOk_congr
            (by rw [hσC, lines_modifyCore, lines_modifyPacket]) hlenC hlines,
            ?_, ?_⟩
          · rw [hσC, packetData_length_modifyCore, packetData_length_modifyPacket]
            exact hi
          · rw [hpC]
            exact htag
          · unfold PhaseOk
            rw [hparC]
            intro c2 hlen2
            by_cases hc2 : c2 = c
            · subst hc2
              rw [hcoreCc]
              exact ⟨hhome.1, rfl, hhome.2.2.1, hhome.2.2.2⟩
            · rw [hothers c2 hc2]
              exact hidle c2 (by rw [← hlenC]; exact hlen2) hc2
        · left
          rw [rho_core σ i c hpar, rho_none _ i hparC, hex, if_pos rfl, hpd0]
          omega
      · cases hlo : (σ.core c).lines_out.getD d none with
        | none =>
            have hfdn : forwardDir σ c i d =
                ((σ.pushOutput ("Packet " ++ toString (σ.packet i).name ++
                  " was lost")).modifyPacket i
                  fun q => { q with parent := Parent.none }, none) := by
              unfold forwardDir
              simp only [hlo]
            rw [coreRoute_exit_gen σ c i
              ((σ.pushOutput ("Packet " ++ toString (σ.packet i).name ++
                " was lost")).modifyPacket i
                fun q => { q with parent := Parent.none })
              hc hhome hdel hexS (hfw.trans hfdn) rfl rfl]
            have hnoop := coreSendOut_noop
              (((σ.pushOutput ("Packet " ++ toString (σ.packet i).name ++
                " was lost")).modifyPacket i
                fun q => { q with parent := Parent.none }).modifyCore c
                fun co => { co with wait_buffer := [] }) c
              (by rw [cores_length_modifyCore]
                  exact hc)
              (by rw [core_modifyCore_self _ c _ (by exact hc)]
                  exact hhome.2.2.1)
            rw [hnoop]
            set σC := ((σ.pushOutput ("Packet " ++ toString (σ.packet i).name ++
              " was lost")).modifyPacket i
              fun q => { q with parent := Parent.none }).modifyCore c
              (fun co => { co with wait_buffer := [] }) with hσC
            have hpC : σC.packet i = { σ.packet i with parent := Parent.none } := by
              rw [hσC]
              exact packet_modifyPacket_self
                (σ.pushOutput ("Packet " ++ toString (σ.packet i).name ++
                  " was lost")) i
                (fun q => { q with parent := Parent.none }) (by exact hi)
            have hparC : (σC.packet i).parent = Parent.none := by
              rw [hpC]
            have hlenC : σC.cores.length = σ.cores.length := by
              rw [hσC, cores_length_modifyCore, cores_length_modifyPacket,
                cores_length_pushOutput]
            have hcoreCc : σC.core c = { σ.core c with wait_buffer := [] } := by
              rw [hσC]
              exact core_modifyCore_self _ c _ (by exact hc)
            have hothers : ∀ c2, c2 ≠ c → σC.core c2 = σ.core c2 := by
              intro c2 hne
              rw [hσC]
              exact core_modifyCore_ne _ c c2 _ (fun h => hne h.symm)
            constructor
            · refine ⟨hps, ?_, linesOk_congr
                (by rw [hσC, lines_modifyCore, lines_modifyPacket,
                  lines_pushOutput]) hlenC hlines, ?_, ?_⟩
              · rw [hσC, packetData_length_modifyCore,
                  packetData_length_modifyPacket, packetData_length_pushOutput]
                exact hi
              · rw [hpC]
                exact htag
              · unfold PhaseOk
                rw [hparC]
                intro c2 hlen2
                by_cases hc2 : c2 = c
                · subst hc2
                  rw [hcoreCc]
                  exact ⟨hhome.1, rfl, hhome.2.2.1, hhome.2.2.2⟩
                · rw [hothers c2 hc2]
                  exact hidle c2 (by rw [← hlenC]; exact hlen2) hc2
            · right
              refine ⟨hparC, ?_⟩
              have hpdC : pdist (σC.packet i) = pdist (σ.packet i) := by
                rw [hpC]
                rfl
              rw [hpdC]
              unfold pdist at hpd1
              unfold pdist
              omega
        | some l =>
            have hlc := line_clear_of_linesOk σ hlines l
            rw [coreRoute_exit_stage σ c i d l hc hhome hdel hexS hfw hd6 hlo hlc]
            set σR := σ.modifyCore c (fun co =>
              { co with
                wait_buffer := []
                packet_out_buffer :=
                  (List.replicate 6 emptyBuffer).set d (emptyBuffer.add i) }) with hσR
            have hcR : c < σR.cores.length := by
              rw [hσR, cores_length_modifyCore]
              exact hc
            have hcoreR : σR.core c = { σ.core c with
                wait_buffer := []
                packet_out_buffer :=
                  (List.replicate 6 emptyBuffer).set d (emptyBuffer.add i) } := by
              rw [hσR]
              exact core_modifyCore_self _ c _ (by exact hc)
            have hstage := coreSendOut_stage σR c i d l hcR hd6
              (by rw [hcoreR])
              (by rw [hcoreR]
                  exact hlo)
              (by rw [hσR]
                  exact hlc)
            rw [hstage]
            set σC := (σR.modifyCore c fun co =>
              { co with packet_out_buffer := List.replicate 6 emptyBuffer }).modifyPacket
              i (fun p => { p with parent := Parent.line l, routing_delay := 1 }) with hσC
            have hpC : σC.packet i = { σ.packet i with
                parent := Parent.line l, routing_delay := 1 } := by
              rw [hσC]
              exact packet_modifyPacket_self
                (σR.modifyCore c fun co =>
                  { co with packet_out_buffer := List.replicate 6 emptyBuffer }) i
                (fun p => { p with parent := Parent.line l, routing_delay := 1 })
                (by rw [packetData_length_modifyCore, hσR,
                      packetData_length_modifyCore]
                    exact hi)
            have hparC : (σC.packet i).parent = Parent.line l := by
              rw [hpC]
            have hlenC : σC.cores.length = σ.cores.length := by
              rw [hσC, cores_length_modifyPacket, cores_length_modifyCore, hσR,
                cores_length_modifyCore]
            have hcoreCc : σC.core c = { σ.core c with
                wait_buffer := []
                packet_out_buffer := List.replicate 6 emptyBuffer } := by
              rw [hσC]
              show ((σR.modifyCore c fun co =>
                { co with packet_out_buffer := List.replicate 6 emptyBuffer }).core c) = _
              rw [core_modifyCore_self _ c _ hcR, hcoreR]
            have hothers : ∀ c2, c2 ≠ c → σC.core c2 = σ.core c2 := by
              intro c2 hne
              rw [hσC]
              show ((σR.modifyCore c fun co =>
                { co with packet_out_buffer := List.replicate 6 emptyBuffer }).core c2) = _
              rw [core_modifyCore_ne _ c c2 _ (fun h => hne h.symm), hσR,
                core_modifyCore_ne _ c c2 _ (fun h => hne h.symm)]
            have hpdC : pdist (σC.packet i) = pdist (σ.packet i) := by
              rw [hpC]
              rfl
            constructor
            · refine ⟨hps, ?_, linesOk_congr
                (by rw [hσC, lines_modifyPacket, lines_modifyCore, hσR,
                  lines_modifyCore]) hlenC hlines, ?_, ?_⟩
              · rw [hσC, packetData_length_modifyPacket,
                  packetData_length_modifyCore, hσR, packetData_length_modifyCore]
                exact hi
              · rw [hpC]
                exact htag
              · unfold PhaseOk
                rw [hparC]
                refine ⟨?_, ?_, Or.inl ?_⟩
                · intro c2 hlen2
                  by_cases hc2 : c2 = c
                  · subst hc2
                    rw [hcoreCc]
                    exact ⟨hhome.1, rfl, rfl, hhome.2.2.2⟩
                  · rw [hothers c2 hc2]
                    exact hidle c2 (by rw [← hlenC]; exact hlen2) hc2
                · rw [hpdC]
                  exact hpd1
                · rw [hpC]
            · left
              rw [rho_core σ i c hpar, rho_line _ i l hparC, hpdC, hex, if_pos rfl]
              omega
    · have hnex : isExitTag (σ.packet i).directionality = false :=
        bool_eq_false_of_not hex
      obtain ⟨tg, htgm, hroute⟩ := coreRoute_winner σ c i hc hhome hdel htag hnex
      rw [hroute, coreSendOut_noop _ c (by exact hc) (by exact hhome.2.2.1)]
      set σB := σ.setPacket i { σ.packet i with
        routing_delay := 6, directionality := tg } with hσB
      have hpB : σB.packet i = { σ.packet i with
          routing_delay := 6, directionality := tg } :=
        packet_setPacket_self σ i _ hi
      have hparB : (σB.packet i).parent = Parent.core c := by
        rw [hpB]
        exact hpar
      constructor
      · refine ⟨hps, ?_, linesOk_congr rfl rfl hlines, ?_, ?_⟩
        · rw [hσB, packetData_length_setPacket]
          exact hi
        · rw [hpB]
          exact htgm
        · unfold PhaseOk
          rw [hparB]
          exact ⟨hc, hhome, hidle⟩
      · left
        rw [rho_core σ i c hpar, rho_core _ i c hparB, hpB, hnex,
          if_neg (by decide)]
        have hER : 1 ≤ (if isExitTag tg then 1 else 8) := by
          split_ifs <;> omega
        dsimp only [pdist]
        omega

theorem core_modifyPacket (σ : SimState) (i : PacketId) (f : Packet → Packet)
    (c : CoreId) : (σ.modifyPacket i f).core c = σ.core c := rfl

set_option maxHeartbeats 1600000 in
theorem step_line (sh : List CoreId → List CoreId)
    (hsh0 : sh [] = []) (hsh1 : ∀ c2 : CoreId, sh [c2] = [c2])
    (σ : SimState) (i : PacketId) (l : LineId)
    (hInv : Inv σ i) (hpar : (σ.packet i).parent = Parent.line l) :
    Inv (midTick sh σ) i ∧
      (rho σ i ≤ rho (midTick sh σ) i + 1 ∨ Lost (midTick sh σ) i) := by
  obtain ⟨hps, hi, hlines, htag, hph⟩ := hInv
  have hph2 : allCoresIdle σ ∧ 1 ≤ pdist (σ.packet i) ∧
      ((σ.packet i).routing_delay = 1 ∨
        ((σ.packet i).routing_delay = 0 ∧ (σ.line l).component_out = none)) := by
    unfold PhaseOk at hph
    rw [hpar] at hph
    exact hph
  obtain ⟨hallidle, hpd, hdisj⟩ := hph2
  simp only [midTick]
  rw [decrement_line σ i l hps hpar]
  set σ1 := σ.modifyPacket i (fun p =>
    { p with routing_delay := p.routing_delay - 1 }) with hσ1
  have hp1 : σ1.packet i = { σ.packet i with
      routing_delay := (σ.packet i).routing_delay - 1 } := by
    rw [hσ1]
    exact packet_modifyPacket_self σ i
      (fun p => { p with routing_delay := p.routing_delay - 1 }) hi
  have hpar1 : (σ1.packet i).parent = Parent.line l := by
    rw [hp1]
    exact hpar
  have hdel1 : (σ1.packet i).routing_delay = 0 := by
    rw [hp1]
    show (σ.packet i).routing_delay - 1 = 0
    rcases hdisj with h | h
    · omega
    · omega
  have hps1 : σ1.packets = [i] := hps
  have hpd1 : pdist (σ1.packet i) = pdist (σ.packet i) := by
    rw [hp1]
    rfl
  have hi1 : i < σ1.packetData.length := by
    rw [hσ1, packetData_length_modifyPacket]
    exact hi
  cases hco : (σ.line l).component_out with
  | none =>
      have hstuck : lineExitStep σ1 i = σ1 :=
        lineExitStep_stuck σ1 i l hpar1 hdel1 (by rw [hσ1]; exact hco)
      rw [visit_line_stuck σ1 i l hps1 hpar1 hstuck]
      dsimp only
      rw [hsh0]
      simp only [List.foldl]
      constructor
      · refine ⟨hps1, hi1, linesOk_congr (by rw [hσ1, lines_modifyPacket])
          (by rw [hσ1, cores_length_modifyPacket]) hlines, ?_, ?_⟩
        · rw [hp1]
          exact htag
        · unfold PhaseOk
          rw [hpar1]
          refine ⟨?_, ?_, Or.inr ⟨hdel1, ?_⟩⟩
          · exact hallidle
          · rw [hpd1]
            exact hpd
          · rw [hσ1]
            exact hco
      · left
        rw [rho_line σ i l hpar, rho_line σ1 i l hpar1, hpd1]
        omega
  | some c =>
      have hc : c < σ.cores.length := line_out_bound σ hlines l c hco
      have hco1 : (σ1.line l).component_out = some c := by
        rw [hσ1]
        exact hco
      have hpd1' : 1 ≤ pdist (σ1.packet i) := by
        rw [hpd1]
        exact hpd
      have hinj : lineExitStep σ1 i =
          coreInject (σ1.setPacket i (exitUpdate (σ1.packet i))) c i :=
        lineExitStep_inject σ1 i l c hpar1 hdel1 hco1 hpd1'
      set σ2 := coreInject (σ1.setPacket i (exitUpdate (σ1.packet i))) c i with hσ2
      have hi1s : i < (σ1.setPacket i (exitUpdate (σ1.packet i))).packetData.length := by
        rw [packetData_length_setPacket]
        exact hi1
      have hp2 : σ2.packet i = { exitUpdate (σ1.packet i) with
          routing_delay := 2, parent := Parent.core c } := by
        rw [hσ2, coreInject_packet _ c i hi1s,
          packet_setPacket_self σ1 i _ hi1]
      have hpar2 : (σ2.packet i).parent = Parent.core c := by
        rw [hp2]
      have hps2 : σ2.packets = [i] := hps
      rw [visit_line_inject σ1 i σ2 c hps1 hinj hpar2]
      dsimp only
      rw [hsh1 c]
      simp only [List.foldl]
      have hcoreIdle_c : coreIdle (σ.core c) := hallidle c hc
      have hlen2 : σ2.cores.length = σ.cores.length := by
        rw [hσ2]
        simp only [coreInject]
        rw [cores_length_modifyCore, cores_length_modifyPacket,
          cores_length_setPacket, hσ1, cores_length_modifyPacket]
      have hc2 : c < σ2.cores.length := by
        rw [hlen2]
        exact hc
      have hcore2c : σ2.core c = { σ.core c with
          wait_buffer := (σ.core c).wait_buffer ++ [i] } := by
        rw [hσ2, coreInject_core _ c i (by
          rw [cores_length_setPacket, hσ1, cores_length_modifyPacket]
          exact hc)]
        rfl
      have hhome2 : coreHome (σ2.core c) i := by
        rw [hcore2c]
        obtain ⟨hse, hwa, hpo, hmm2⟩ := hcoreIdle_c
        refine ⟨hse, ?_, hpo, hmm2⟩
        rw [hwa]
        rfl
      have hdel2 : (σ2.packet i).routing_delay > 0 := by
        rw [hp2]
        show (2 : Nat) > 0
        omega
      rw [coreRoute_waiting σ2 c i hc2 hhome2 hdel2]
      set σ3 := σ2.modifyPacket i (fun p =>
        { p with routing_delay := p.routing_delay - 1 }) with hσ3
      have hi2 : i < σ2.packetData.length := by
        rw [hσ2]
        simp only [coreInject]
        rw [packetData_length_modifyCore, packetData_length_modifyPacket,
          packetData_length_setPacket]
        exact hi1
      have hp3 : σ3.packet i = { σ2.packet i with
          routing_delay := (σ2.packet i).routing_delay - 1 } := by
        rw [hσ3]
        exact packet_modifyPacket_self σ2 i
          (fun p => { p with routing_delay := p.routing_delay - 1 }) hi2
      rw [coreSendOut_noop σ3 c
        (by rw [hσ3, cores_length_modifyPacket]
            exact hc2)
        (by rw [hσ3]
            show (σ2.core c).packet_out_buffer = _
            rw [hcore2c]
            exact hcoreIdle_c.2.2.1)]
      have hp3' : σ3.packet i = { exitUpdate (σ1.packet i) with
          routing_delay := 1, parent := Parent.core c } := by
        rw [hp3, hp2]
        rfl
      have hpar3 : (σ3.packet i).parent = Parent.core c := by
        rw [hp3']
      have htag3 := exitUpdate_tag (σ1.packet i) hpd1'
      have htagm3 : (σ3.packet i).directionality ∈ TagSet := by
        rw [hp3']
        exact htag3.2
      have hpd3 : pdist (σ3.packet i) = pdist (σ.packet i) - 1 := by
        rw [hp3']
        show pdist (exitUpdate (σ1.packet i)) = pdist (σ.packet i) - 1
        rw [pdist_exitUpdate (σ1.packet i) hpd1', hpd1]
      constructor
      · refine ⟨hps, ?_, ?_, htagm3, ?_⟩
        · rw [hσ3, packetData_length_modifyPacket]
          exact hi2
        · refine linesOk_congr ?_ ?_ hlines
          · rw [hσ3, lines_modifyPacket, hσ2]
            simp only [coreInject]
            rw [lines_modifyCore, lines_modifyPacket, lines_setPacket, hσ1,
              lines_modifyPacket]
          · rw [hσ3, cores_length_modifyPacket, hlen2]
        · unfold PhaseOk
          rw [hpar3]
          refine ⟨?_, ?_, ?_⟩
          · rw [hσ3, cores_length_modifyPacket]
            exact hc2
          · show coreHome (σ2.core c) i
            exact hhome2
          · intro c2 hl2 hne
            have hcc2 : σ3.core c2 = σ.core c2 := by
              rw [hσ3, core_modifyPacket, hσ2]
              simp only [coreInject]
              rw [core_modifyCore_ne _ c c2 _ (fun h => hne h.symm),
                core_modifyPacket, core_setPacket, hσ1, core_modifyPacket]
            rw [hcc2]
            exact hallidle c2 (by
              rw [← hlen2, ← cores_length_modifyPacket σ2 i
                (fun p => { p with routing_delay := p.routing_delay - 1 }),
                ← hσ3]
              exact hl2)
      · left
        rw [rho_line σ i l hpar, rho_core σ3 i c hpar3, hpd3]
        have hE3 : isExitTag ((σ3.packet i)).directionality = false := by
          rw [hp3']
          exact htag3.1
        rw [hE3, if_neg (by decide)]
        omega

/-! ### C7 — one full tick preserves the invariant and lowers the
potential by at most one -/

theorem tick_step (sh : List CoreId → List CoreId)
    (hsh : ∀ ls : List CoreId, List.Perm (sh ls) ls)
    (σ : SimState) (i : PacketId) (hInv : Inv σ i) :
    Inv (tick sh σ) i ∧
      (rho σ i ≤ rho (tick sh σ) i + 1 ∨ Lost (tick sh σ) i) ∧
      ((σ.packet i).parent = Parent.none → (tick sh σ).packet i = σ.packet i) := by
  have hsh0 : sh [] = [] := List.perm_nil.mp (hsh [])
  have hsh1 : ∀ c : CoreId, sh [c] = [c] := fun c =>
    List.perm_singleton.mp (hsh [c])
  set σp := (if σ.t % 10 == 0 then σ.pushOutput (toString σ.t) else σ) with hσp
  have hpre : σp.packets = σ.packets ∧ σp.packetData = σ.packetData ∧
      σp.cores = σ.cores ∧ σp.lines = σ.lines := by
    rw [hσp]
    split_ifs
    · exact ⟨rfl, rfl, rfl, rfl⟩
    · exact ⟨rfl, rfl, rfl, rfl⟩
  have hInvP : Inv σp i := inv_congr i hpre.1 hpre.2.1 hpre.2.2.1 hpre.2.2.2 hInv
  have hrhoP : rho σp i = rho σ i := rho_congr i hpre.2.1
  have hpP : σp.packet i = σ.packet i := packet_congr i hpre.2.1
  have htick : tick sh σ = { midTick sh σp with t := (midTick sh σp).t + 1 } := by
    rw [hσp]
    rfl
  have ht4 : (tick sh σ).packets = (midTick sh σp).packets ∧
      (tick sh σ).packetData = (midTick sh σp).packetData ∧
      (tick sh σ).cores = (midTick sh σp).cores ∧
      (tick sh σ).lines = (midTick sh σp).lines := by
    rw [htick]
    exact ⟨rfl, rfl, rfl, rfl⟩
  have hrt : rho (tick sh σ) i = rho (midTick sh σp) i := rho_congr i ht4.2.1
  have hpt : (tick sh σ).packet i = (midTick sh σp).packet i :=
    packet_congr i ht4.2.1
  have hmain : Inv (midTick sh σp) i ∧
      (rho σp i ≤ rho (midTick sh σp) i + 1 ∨ Lost (midTick sh σp) i) := by
    cases hpar : (σp.packet i).parent with
    | core c => exact step_core sh hsh1 σp i c hInvP hpar
    | line l => exact step_line sh hsh0 hsh1 σp i l hInvP hpar
    | none =>
        rw [midTick_none_shape sh σp i hsh0 hInvP.1 hpar]
        exact ⟨hInvP, Or.inl (by omega)⟩
  refine ⟨inv_congr i ht4.1 ht4.2.1 ht4.2.2.1 ht4.2.2.2 hmain.1, ?_, ?_⟩
  · rcases hmain.2 with h | h
    · left
      rw [hrt, ← hrhoP]
      exact h
    · right
      unfold Lost at h ⊢
      rw [hpt]
      exact h
  · intro hdead
    have hparP : (σp.packet i).parent = Parent.none := by
      rw [hpP]
      exact hdead
    have hmid : midTick sh σp = σp := midTick_none_shape sh σp i hsh0 hInvP.1 hparP
    rw [hpt, hmid, hpP]

/-- A packet destroyed away from its destination stays destroyed with its
displacement frozen: `DeadZero` can never hold later. -/
theorem lost_tickN (sh : List CoreId → List CoreId)
    (hsh : ∀ ls : List CoreId, List.Perm (sh ls) ls) (i : PacketId) :
    ∀ (T : Nat) (σ : SimState), Inv σ i → Lost σ i → Lost (tickN sh T σ) i := by
  intro T
  induction T with
  | zero =>
      intro σ hInv hL
      exact hL
  | succ T ih =>
      intro σ hInv hL
      obtain ⟨hI2, _, hframe⟩ := tick_step sh hsh σ i hInv
      have hL2 : Lost (tick sh σ) i := by
        unfold Lost at hL ⊢
        rw [hframe hL.1]
        exact hL
      exact ih (tick sh σ) hI2 hL2

/-- The potential `rho` lower-bounds the number of ticks to destruction at
the destination. -/
theorem rho_bound (sh : List CoreId → List CoreId)
    (hsh : ∀ ls : List CoreId, List.Perm (sh ls) ls) (i : PacketId) :
    ∀ (T : Nat) (σ : SimState), Inv σ i → DeadZero (tickN sh T σ) i →
      rho σ i ≤ T := by
  intro T
  induction T with
  | zero =>
      intro σ hInv hD
      rw [rho_none σ i hD.1]
  | succ T ih =>
      intro σ hInv hD
      obtain ⟨hI2, hdisj, _⟩ := tick_step sh hsh σ i hInv
      rcases hdisj with h | h
      · have h2 := ih (tick sh σ) hI2 hD
        omega
      · exfalso
        have hLT := lost_tickN sh hsh i T (tick sh σ) hI2 h
        exact hLT.2 hD.2

theorem det_not_exit (dx dy dz : Int) :
    isExitTag (determine_directionality dx dy dz) = false := by
  simp only [determine_directionality]
  split_ifs <;> decide

/-- C7: for a packet with displacement (Δx, Δy, Δz) freshly injected into
a source core (entry delay 2, initial tag from `determine_directionality`)
with no other traffic in the mesh, at least `2 + 7·(|Δx|+|Δy|+|Δz|)` ticks
of `simulate`'s loop elapse before the packet can be destroyed at its
destination (displacement fully consumed); the shuffle of the visit list
is an arbitrary permutation each tick. -/
theorem packet_latency_lower_bound
    (sh : List CoreId → List CoreId)
    (hsh : ∀ ls : List CoreId, List.Perm (sh ls) ls)
    (σ0 : SimState) (i : PacketId) (c : CoreId) (T : Nat)
    (hInv : Inv σ0 i)
    (hpar : (σ0.packet i).parent = Parent.core c)
    (hdel : (σ0.packet i).routing_delay = 2)
    (htag0 : (σ0.packet i).directionality =
      determine_directionality (σ0.packet i).dx (σ0.packet i).dy
        (σ0.packet i).dz)
    (hdead : ((tickN sh T σ0).packet i).parent = Parent.none)
    (hdest : pdist ((tickN sh T σ0).packet i) = 0) :
    2 + 7 * pdist (σ0.packet i) ≤ T := by
  have hb := rho_bound sh hsh i T σ0 hInv ⟨hdead, hdest⟩
  rw [rho_core σ0 i c hpar, hdel, htag0, det_not_exit _ _ _,
    if_neg (by decide)] at hb
  omega

/-- One idle core, no wires, and a single zero-displacement packet freshly
injected into the core (entry delay 2, fall-through tag `downbound`): the
packet is destroyed at its destination after exactly 10 ticks. -/
def c7State : SimState :=
  { packets := [0],
    packetData :=
      [{ dx := 0, dy := 0, dz := 0, routing_delay := 2, name := 1,
         parent := Parent.core 0,
         directionality := determine_directionality 0 0 0 }],
    cores := [{ freshCore (List.replicate 6 none) (List.replicate 6 none) 0 with
      wait_buffer := [0] }],
    lines := [], delays := 0, output := [], t := 0 }

theorem c7State_inv : Inv c7State 0 := by
  refine ⟨rfl, by decide, ?_, by decide, ?_⟩
  · intro a ha
    exact absurd ha (List.not_mem_nil a)
  · show 0 < c7State.cores.length ∧ coreHome (c7State.core 0) 0 ∧
      coresIdleExcept c7State 0
    refine ⟨by decide, ⟨rfl, rfl, rfl, ⟨rfl, rfl, rfl, rfl, rfl, rfl⟩⟩, ?_⟩
    intro c2 h1 h2
    have h1' : c2 < 1 := h1
    exact absurd (by omega) h2

set_option maxRecDepth 8000 in
/-- Witness for `packet_latency_lower_bound` at a concrete one-core state:
the zero-displacement packet is destroyed at its destination after 10
ticks, and 10 is at least the bound `2 + 7·0`. -/
theorem packet_latency_lower_bound_witness :
    Inv c7State 0 ∧ (c7State.packet 0).parent = Parent.core 0 ∧
    (c7State.packet 0).routing_delay = 2 ∧
    ((tickN (fun ls => ls) 10 c7State).packet 0).parent = Parent.none ∧
    pdist ((tickN (fun ls => ls) 10 c7State).packet 0) = 0 ∧
    2 + 7 * pdist (c7State.packet 0) ≤ 10 :=
  ⟨c7State_inv, rfl, rfl, by decide, by decide,
    packet_latency_lower_bound (fun ls => ls) (fun ls => List.Perm.refl ls)
      c7State 0 0 10 c7State_inv rfl rfl rfl (by decide) (by decide)⟩

end TrueSim
